import Mathlib

/-!
Verification development for the table-cleaning script `src/data/clean_csv.py`.

The script loads a CSV file into a table, then applies five steps in order:
1. parse the `Order Date` and `Ship Date` columns with the fixed pattern
   `%m/%d/%Y` (fails on any non-matching cell),
2. strip leading/trailing whitespace from every column name and from every
   string-valued cell,
3. drop duplicate rows, keeping the first occurrence,
4. fill missing values in the columns `Sales`, `Quantity`, `Discount`,
   `Profit` with the number 0,
5. write the result to a CSV file (dates rendered as ISO `YYYY-MM-DD`).

The embedding models a table as a header (list of column names) plus rows of
cells; a cell is a string, a number, a calendar date, or the missing marker
(`NaN`). CSV reading turns an empty field into the missing marker and every
other field into a string cell. Date parsing follows the strptime semantics
of the `%m/%d/%Y` format: 1-2 digit month in 1..12, 1-2 digit day valid for
the month (leap years included), exactly 4 digit year, separators `/`, no
other characters, no tolerated whitespace.
-/

namespace CleanCsv

/-- The whitespace characters removed by Python's `str.strip()` (ASCII part;
the CSV cells at issue contain only ASCII whitespace). -/
def isPySpace (c : Char) : Bool :=
  c = ' ' || c = '\t' || c = '\n' || c = '\r' || c = '\x0b' || c = '\x0c'

/-- Strip leading and trailing whitespace from a list of characters,
as Python's `str.strip()` does. -/
def stripChars (l : List Char) : List Char :=
  ((l.dropWhile isPySpace).reverse.dropWhile isPySpace).reverse

/-- Python's `str.strip()` on strings: used for column names and string
cells by step 2 of the script. -/
def pystrip (s : String) : String :=
  String.mk (stripChars s.data)

/-- One decimal digit as a character (inputs above 9 clamp to `'9'`;
all callers pass digits). -/
def digitChar (n : Nat) : Char :=
  match n with
  | 0 => '0' | 1 => '1' | 2 => '2' | 3 => '3' | 4 => '4'
  | 5 => '5' | 6 => '6' | 7 => '7' | 8 => '8' | _ => '9'

/-- Numeric value of a digit character. -/
def digitVal (c : Char) : Nat := c.toNat - '0'.toNat

/-- Two-digit zero-padded rendering, as `strftime` does for `%m` and `%d`. -/
def pad2 (n : Nat) : List Char := [digitChar (n / 10 % 10), digitChar (n % 10)]

/-- Four-digit zero-padded rendering, as `strftime` does for `%Y`. -/
def pad4 (n : Nat) : List Char :=
  [digitChar (n / 1000 % 10), digitChar (n / 100 % 10),
   digitChar (n / 10 % 10), digitChar (n % 10)]

/-- Value of a digit string, most significant digit first. -/
def digitsToNat (l : List Char) : Nat :=
  l.foldl (fun n c => n * 10 + digitVal c) 0

/-- Gregorian leap-year rule, as used by `datetime`. -/
def isLeapYear (y : Nat) : Bool :=
  y % 4 == 0 && (y % 100 != 0 || y % 400 == 0)

/-- Number of days of month `m` (1-12) in year `y`. -/
def daysInMonth (m y : Nat) : Nat :=
  if m = 2 then (if isLeapYear y then 29 else 28)
  else if m = 4 ∨ m = 6 ∨ m = 9 ∨ m = 11 then 30
  else 31

/-- A calendar date as parsed by the fixed-format `pd.to_datetime`; the
parser only produces dates with a month 1-12, a day valid for the month and
a 4-digit year. -/
structure CalDate where
  month : Nat
  day : Nat
  year : Nat
deriving DecidableEq

/-- The dates the `%m/%d/%Y` parser can produce. -/
def validDateB (d : CalDate) : Bool :=
  decide (1 ≤ d.month) && decide (d.month ≤ 12) && decide (1 ≤ d.day) &&
  decide (d.day ≤ daysInMonth d.month d.year) &&
  decide (1 ≤ d.year) && decide (d.year ≤ 9999)

/-- ASCII digit test, the character class accepted by the `%m`, `%d` and
`%Y` directives. -/
def isDigitC (c : Char) : Bool :=
  decide ('0'.toNat ≤ c.toNat ∧ c.toNat ≤ '9'.toNat)

/-- Split a character list at every occurrence of `sep` (the separators are
dropped; `n` separators yield `n+1` parts). -/
def splitOnChar (sep : Char) : List Char → List (List Char)
  | [] => [[]]
  | c :: rest =>
    match splitOnChar sep rest with
    | [] => [[]]
    | p :: ps => if c = sep then [] :: p :: ps else (c :: p) :: ps

/-- `strptime`-style parsing of the fixed format `%m/%d/%Y`: exactly two
`/` separators, all other characters digits, month of 1-2 digits in 1..12,
day of 1-2 digits valid for the month, year of exactly 4 digits, year at
least 1, and no surrounding or embedded extra characters. -/
def parseDateChars (l : List Char) : Option CalDate :=
  match splitOnChar '/' l with
  | [ms, ds, ys] =>
    if ms.all isDigitC ∧ ds.all isDigitC ∧ ys.all isDigitC
        ∧ 1 ≤ ms.length ∧ ms.length ≤ 2 ∧ 1 ≤ ds.length ∧ ds.length ≤ 2
        ∧ ys.length = 4 then
      let m := digitsToNat ms
      let d := digitsToNat ds
      let y := digitsToNat ys
      if 1 ≤ m ∧ m ≤ 12 ∧ 1 ≤ d ∧ d ≤ daysInMonth m y ∧ 1 ≤ y then
        some ⟨m, d, y⟩
      else none
    else none
  | _ => none

/-- `pd.to_datetime(cell, format ...)` on one string cell. -/
def parseDate (s : String) : Option CalDate := parseDateChars s.data

/-- ISO `YYYY-MM-DD` rendering, the form `to_csv` writes datetime values in. -/
def isoDate (d : CalDate) : String :=
  String.mk (pad4 d.year ++ '-' :: (pad2 d.month ++ '-' :: pad2 d.day))

/-- `MM/DD/YYYY` rendering, the script's expected input date pattern. -/
def mmddyyyy (d : CalDate) : String :=
  String.mk (pad2 d.month ++ '/' :: (pad2 d.day ++ '/' :: pad4 d.year))

/-- One cell of the table: a string, a number, a parsed date, or the
missing marker (pandas `NaN`). -/
inductive Cell where
  | str (s : String)
  | num (n : Int)
  | date (d : CalDate)
  | missing
deriving DecidableEq

/-- One table: a header of column names and rows of cells, the cell at
position `j` of a row belonging to the column at position `j` of the
header. -/
structure Table where
  header : List String
  rows : List (List Cell)
deriving DecidableEq

deriving instance DecidableEq for Except

/-- `pd.read_csv` on one field: an empty field loads as missing (`NaN`),
any other field as text. -/
def readCell (s : String) : Cell :=
  if s = "" then Cell.missing else Cell.str s

/-- `pd.read_csv` on a whole file, given as header plus field rows. -/
def readTable (header : List String) (rows : List (List String)) : Table :=
  ⟨header, rows.map (List.map readCell)⟩

/-- Serialization of one cell by `to_csv`: dates in ISO form, the missing
marker as the empty field. -/
def renderCell : Cell → String
  | Cell.str s => s
  | Cell.num n => toString n
  | Cell.date d => isoDate d
  | Cell.missing => ""

/-- Serialization of the table by `to_csv(index=False)`: the header line
followed by one line per row. -/
def renderTable (t : Table) : List (List String) :=
  t.header :: t.rows.map (List.map renderCell)

/-- The four columns filled by the script's `fillna` step. -/
def fillNames : List String := ["Sales", "Quantity", "Discount", "Profit"]

/-- Position of the first column with the given name (`df[name]` lookup);
`none` is pandas' `KeyError`. -/
def colIdx? (name : String) : List String → Option Nat
  | [] => none
  | h :: rest => if h = name then some 0 else (colIdx? name rest).map (· + 1)

/-- `pd.to_datetime(..., format ...)` on one cell: missing passes through
as `NaT`, a matching string becomes a date, anything else raises. -/
def parseCell : Cell → Except String Cell
  | Cell.str s =>
    match parseDate s with
    | some d => Except.ok (Cell.date d)
    | none => Except.error "ParseError"
  | Cell.missing => Except.ok Cell.missing
  | Cell.date d => Except.ok (Cell.date d)
  | Cell.num _ => Except.error "ParseError"

/-- Date-parse the cell at column position `i` of one row. -/
def parseRowAt (i : Nat) (r : List Cell) : Except String (List Cell) :=
  match r[i]? with
  | none => Except.ok r
  | some c => (parseCell c).map (fun c' => r.set i c')

/-- Effectful map over a list, stopping at the first error (the behaviour
of a columnwise pandas operation that raises). -/
def exceptMapM (f : List Cell → Except String (List Cell)) :
    List (List Cell) → Except String (List (List Cell))
  | [] => Except.ok []
  | r :: rs =>
    match f r with
    | Except.error e => Except.error e
    | Except.ok r' =>
      match exceptMapM f rs with
      | Except.error e => Except.error e
      | Except.ok rs' => Except.ok (r' :: rs')

/-- Step 1 of the script on one column: `df[name] = pd.to_datetime(df[name],
format ...)`. Fails if the column is absent or any cell fails to parse. -/
def parseColStep (name : String) (t : Table) : Except String Table :=
  match colIdx? name t.header with
  | none => Except.error "KeyError"
  | some i =>
    match exceptMapM (parseRowAt i) t.rows with
    | Except.error e => Except.error e
    | Except.ok rs => Except.ok ⟨t.header, rs⟩

/-- Step 2 on one cell: `x.strip() if isinstance(x, str) else x`. -/
def trimCell : Cell → Cell
  | Cell.str s => Cell.str (pystrip s)
  | c => c

/-- Step 2 on one row. -/
def trimRow (r : List Cell) : List Cell := r.map trimCell

/-- Step 2 of the script: strip all column names and all string cells. -/
def trimStep (t : Table) : Table :=
  ⟨t.header.map pystrip, t.rows.map trimRow⟩

/-- Accumulator pass of `drop_duplicates`: keep a row iff it has not been
seen before. -/
def dropDupsGo {α : Type} [DecidableEq α] (seen : List α) : List α → List α
  | [] => []
  | r :: rs =>
    if r ∈ seen then dropDupsGo seen rs
    else r :: dropDupsGo (r :: seen) rs

/-- `df.drop_duplicates()`: remove every row equal to an earlier row (the
missing marker compares equal to itself, as pandas' duplicate detection
treats `NaN`). -/
def dropDuplicates {α : Type} [DecidableEq α] (l : List α) : List α :=
  dropDupsGo [] l

/-- Step 3 of the script. -/
def dedupStep (t : Table) : Table :=
  ⟨t.header, dropDuplicates t.rows⟩

/-- Step 4 on one row: `df.fillna({'Sales': 0, ...})` fills a missing cell
with the number 0 exactly when its column carries one of the four names. -/
def fillRow (header : List String) (r : List Cell) : List Cell :=
  List.zipWith
    (fun h c => if h ∈ fillNames ∧ c = Cell.missing then Cell.num 0 else c)
    header r

/-- Step 4 of the script. -/
def fillStep (t : Table) : Table :=
  ⟨t.header, t.rows.map (fillRow t.header)⟩

/-- The whole cleaning pipeline of `clean_csv.py` from the loaded table to
the table handed to `to_csv`; an error models the script dying before the
output file is created. -/
def cleanTable (t : Table) : Except String Table :=
  match parseColStep "Order Date" t with
  | Except.error e => Except.error e
  | Except.ok t1 =>
    match parseColStep "Ship Date" t1 with
    | Except.error e => Except.error e
    | Except.ok t2 => Except.ok (fillStep (dedupStep (trimStep t2)))

/-- Writing the cleaned table back out and re-reading it with the date
columns re-expressed in the `MM/DD/YYYY` input pattern: a date cell becomes
its `MM/DD/YYYY` text, every other cell round-trips through its `to_csv`
field (so the missing marker and the empty string both come back as
missing, and a number comes back as its decimal text). -/
def reinputCell : Cell → Cell
  | Cell.date d => Cell.str (mmddyyyy d)
  | c => readCell (renderCell c)

/-- Write-then-reload of a whole table, dates re-expressed in the input
pattern. -/
def reinputTable (t : Table) : Table :=
  ⟨t.header, t.rows.map (List.map reinputCell)⟩

/-- Reference formulation following the spec's words for the deduplication
step: keep the first row, delete every later full-value duplicate of it,
recurse on what is left. Stated only to be compared with the source's
accumulator-based `dropDuplicates`. -/
def dedupSpec {α : Type} [DecidableEq α] : List α → List α
  | [] => []
  | a :: l => a :: dedupSpec (l.filter (fun b => decide (b ≠ a)))
termination_by l => l.length
decreasing_by
  simp only [List.length_cons]
  exact Nat.lt_succ_of_le (List.length_filter_le _ _)

/-- Rectangularity: every row has one cell per column, as a CSV load
guarantees. -/
@[reducible]
def WF (t : Table) : Prop := ∀ r ∈ t.rows, r.length = t.header.length

/-- A cell as `read_csv` produces it: text or missing. -/
def isTextCell : Cell → Bool
  | Cell.str _ => true
  | Cell.missing => true
  | _ => false

/-- Every cell of the table is text or missing, as in a freshly loaded
CSV. -/
@[reducible]
def textOnly (t : Table) : Prop := ∀ r ∈ t.rows, ∀ c ∈ r, isTextCell c = true

/-- Shape of a cell of a date column after the parse step. -/
def dateCellOK (c : Cell) : Prop :=
  (∃ d, c = Cell.date d ∧ validDateB d = true) ∨ c = Cell.missing

/-- Shape of a cell of a non-date column in the cleaner's output. -/
def otherCellOK (c : Cell) : Prop :=
  (∃ s, c = Cell.str s ∧ pystrip s = s) ∨ c = Cell.num 0 ∨ c = Cell.missing

/-- No cell sitting in one of the four fill columns serializes to the
empty field. -/
def rowFillSafe (header : List String) (r : List Cell) : Bool :=
  (List.zipWith
    (fun hn c => if hn ∈ fillNames then
        (if renderCell c = "" then false else true) else true)
    header r).all id

/-- Tablewide version of `rowFillSafe`. -/
@[reducible]
def noEmptyFillCells (t : Table) : Prop :=
  ∀ r ∈ t.rows, rowFillSafe t.header r = true

/-- Predicted row after reloading a cleaned row and re-parsing the
`Order Date` column at position `iod`. -/
def rtRow1 (iod : Nat) (q : List Cell) : List Cell :=
  (q.map reinputCell).set iod (q.getD iod Cell.missing)

/-- Predicted row after reloading a cleaned row and re-parsing both date
columns. -/
def rtRow2 (iod isd : Nat) (q : List Cell) : List Cell :=
  (rtRow1 iod q).set isd (q.getD isd Cell.missing)

/-! ### Whitespace stripping -/

theorem head?_dropWhile (p : Char → Bool) (l : List Char) :
    ∀ x ∈ (l.dropWhile p).head?, p x = false := by
  induction l with
  | nil => simp
  | cons a l ih =>
    intro x hx
    by_cases h : p a
    · exact ih x (by simpa [List.dropWhile_cons, h] using hx)
    · rw [List.dropWhile_cons_of_neg h] at hx
      simp only [List.head?_cons, Option.mem_def, Option.some.injEq] at hx
      subst hx
      simpa using h

theorem dropWhile_eq_self {p : Char → Bool} {l : List Char}
    (h : ∀ x ∈ l.head?, p x = false) : l.dropWhile p = l := by
  cases l with
  | nil => rfl
  | cons a l =>
    have ha : p a = false := h a (by simp)
    simp [List.dropWhile_cons, ha]

theorem getLast?_dropWhile (p : Char → Bool) (l : List Char)
    (h : l.dropWhile p ≠ []) : (l.dropWhile p).getLast? = l.getLast? := by
  induction l with
  | nil => simp at h
  | cons a l ih =>
    by_cases hp : p a
    · rw [List.dropWhile_cons_of_pos hp] at h ⊢
      cases l with
      | nil => simp at h
      | cons b m => rw [ih h, List.getLast?_cons_cons]
    · rw [List.dropWhile_cons_of_neg hp]

theorem getLast?_reverse' (l : List Char) : l.reverse.getLast? = l.head? := by
  have h := List.head?_reverse l.reverse
  rw [List.reverse_reverse] at h
  exact h.symm

theorem stripChars_getLast? (l : List Char) :
    ∀ x ∈ (stripChars l).getLast?, isPySpace x = false := by
  intro x hx
  unfold stripChars at hx
  rw [getLast?_reverse'] at hx
  exact head?_dropWhile _ _ x hx

theorem stripChars_head? (l : List Char) :
    ∀ x ∈ (stripChars l).head?, isPySpace x = false := by
  intro x hx
  unfold stripChars at hx
  rw [List.head?_reverse] at hx
  by_cases hne : (l.dropWhile isPySpace).reverse.dropWhile isPySpace = []
  · rw [hne] at hx; simp at hx
  · rw [getLast?_dropWhile _ _ hne, getLast?_reverse'] at hx
    exact head?_dropWhile _ _ x hx

theorem stripChars_eq_self {l : List Char}
    (h1 : ∀ x ∈ l.head?, isPySpace x = false)
    (h2 : ∀ x ∈ l.getLast?, isPySpace x = false) : stripChars l = l := by
  unfold stripChars
  rw [dropWhile_eq_self h1,
    dropWhile_eq_self (by simpa [List.head?_reverse] using h2),
    List.reverse_reverse]

theorem stripChars_idem (l : List Char) :
    stripChars (stripChars l) = stripChars l :=
  stripChars_eq_self (stripChars_head? l) (stripChars_getLast? l)

theorem stripChars_eq_self_of_no_space {l : List Char}
    (h : ∀ c ∈ l, isPySpace c = false) : stripChars l = l :=
  stripChars_eq_self (fun x hx => h x (List.mem_of_mem_head? hx))
    (fun x hx => h x (List.mem_of_mem_getLast? hx))

theorem exists_space_of_stripChars_ne {l : List Char} (h : stripChars l ≠ l) :
    ∃ c ∈ l, isPySpace c = true := by
  by_contra hc
  push_neg at hc
  exact h (stripChars_eq_self_of_no_space
    (fun c hcl => by simpa using hc c hcl))

theorem pystrip_idem (s : String) : pystrip (pystrip s) = pystrip s := by
  unfold pystrip
  exact congrArg String.mk (stripChars_idem s.data)

theorem string_eq_mk_data (s : String) : s = String.mk s.data := rfl

theorem pystrip_ne_iff {s : String} :
    pystrip s ≠ s ↔ stripChars s.data ≠ s.data := by
  constructor
  · intro h hdata
    exact h (by rw [pystrip, hdata])
  · intro h hs
    exact h (congrArg String.data hs)

/-! ### Digits and date parsing -/

theorem char_toNat_zero : '0'.toNat = 48 := by decide

theorem char_toNat_nine : '9'.toNat = 57 := by decide

theorem isDigitC_iff {c : Char} :
    isDigitC c = true ↔ 48 ≤ c.toNat ∧ c.toNat ≤ 57 := by
  simp [isDigitC, char_toNat_zero, char_toNat_nine]

theorem digitVal_le_of_isDigitC {c : Char} (h : isDigitC c = true) :
    digitVal c ≤ 9 := by
  rcases isDigitC_iff.mp h with ⟨h1, h2⟩
  unfold digitVal
  rw [char_toNat_zero]
  omega

theorem digitVal_digitChar {k : Nat} (h : k ≤ 9) :
    digitVal (digitChar k) = k := by
  interval_cases k <;> rfl

theorem isDigitC_digitChar (k : Nat) : isDigitC (digitChar k) = true := by
  unfold digitChar
  split <;> decide

theorem digitChar_ne_slash (k : Nat) : digitChar k ≠ '/' := by
  intro h
  have hd := isDigitC_digitChar k
  rw [h] at hd
  exact absurd hd (by decide)

theorem slash_not_mem_pad2 (n : Nat) : '/' ∉ pad2 n := by
  intro h
  simp only [pad2, List.mem_cons, List.not_mem_nil, or_false] at h
  rcases h with h | h <;> exact digitChar_ne_slash _ h.symm

theorem slash_not_mem_pad4 (n : Nat) : '/' ∉ pad4 n := by
  intro h
  simp only [pad4, List.mem_cons, List.not_mem_nil, or_false] at h
  rcases h with h | h | h | h <;> exact digitChar_ne_slash _ h.symm

theorem digitsToNat_pad2 {n : Nat} (h : n ≤ 99) : digitsToNat (pad2 n) = n := by
  unfold digitsToNat pad2
  simp only [List.foldl]
  rw [digitVal_digitChar (show n / 10 % 10 ≤ 9 by omega),
    digitVal_digitChar (show n % 10 ≤ 9 by omega)]
  omega

theorem digitsToNat_pad4 {n : Nat} (h : n ≤ 9999) :
    digitsToNat (pad4 n) = n := by
  unfold digitsToNat pad4
  simp only [List.foldl]
  rw [digitVal_digitChar (show n / 1000 % 10 ≤ 9 by omega),
    digitVal_digitChar (show n / 100 % 10 ≤ 9 by omega),
    digitVal_digitChar (show n / 10 % 10 ≤ 9 by omega),
    digitVal_digitChar (show n % 10 ≤ 9 by omega)]
  omega

theorem pad2_all_digits (n : Nat) : (pad2 n).all isDigitC = true := by
  simp [pad2, isDigitC_digitChar]

theorem pad4_all_digits (n : Nat) : (pad4 n).all isDigitC = true := by
  simp [pad4, isDigitC_digitChar]

theorem digitsToNat_le_9999 {l : List Char} (hd : l.all isDigitC = true)
    (hl : l.length = 4) : digitsToNat l ≤ 9999 := by
  match l, hl with
  | [a, b, c, d], _ =>
    simp only [List.all_cons, List.all_nil, Bool.and_eq_true,
      and_true] at hd
    obtain ⟨ha, hb, hc, hdd⟩ := hd
    have va := digitVal_le_of_isDigitC ha
    have vb := digitVal_le_of_isDigitC hb
    have vc := digitVal_le_of_isDigitC hc
    have vd := digitVal_le_of_isDigitC hdd
    unfold digitsToNat
    simp only [List.foldl]
    omega

theorem daysInMonth_le_31 (m y : Nat) : daysInMonth m y ≤ 31 := by
  unfold daysInMonth
  split
  · split <;> omega
  · split <;> omega

/-! ### splitOnChar -/

theorem splitOnChar_cons (sep c : Char) (rest : List Char) :
    splitOnChar sep (c :: rest) =
      match splitOnChar sep rest with
      | [] => [[]]
      | p :: ps => if c = sep then [] :: p :: ps else (c :: p) :: ps := rfl

theorem splitOnChar_ne_nil (sep : Char) (l : List Char) :
    splitOnChar sep l ≠ [] := by
  cases l with
  | nil => simp [splitOnChar]
  | cons c rest =>
    rw [splitOnChar_cons]
    cases splitOnChar sep rest with
    | nil => simp
    | cons p ps =>
      dsimp only
      split <;> simp

theorem splitOnChar_of_not_mem {sep : Char} {a : List Char} (h : sep ∉ a) :
    splitOnChar sep a = [a] := by
  induction a with
  | nil => rfl
  | cons c rest ih =>
    have hc : c ≠ sep := fun hh => h (hh ▸ List.mem_cons_self c rest)
    have hr : sep ∉ rest := fun hh => h (List.mem_cons_of_mem _ hh)
    rw [splitOnChar_cons, ih hr]
    simp [hc]

theorem splitOnChar_append {sep : Char} {a b : List Char} (h : sep ∉ a) :
    splitOnChar sep (a ++ sep :: b) = a :: splitOnChar sep b := by
  induction a with
  | nil =>
    rw [List.nil_append, splitOnChar_cons]
    cases hs : splitOnChar sep b with
    | nil => exact absurd hs (splitOnChar_ne_nil sep b)
    | cons p ps => simp
  | cons c rest ih =>
    have hc : c ≠ sep := fun hh => h (hh ▸ List.mem_cons_self c rest)
    have hr : sep ∉ rest := fun hh => h (List.mem_cons_of_mem _ hh)
    rw [List.cons_append, splitOnChar_cons, ih hr]
    simp [hc]

theorem mem_splitOnChar {sep : Char} {l : List Char} {c : Char} (hc : c ∈ l) :
    c = sep ∨ ∃ part ∈ splitOnChar sep l, c ∈ part := by
  induction l with
  | nil => simp at hc
  | cons d rest ih =>
    rcases List.mem_cons.mp hc with rfl | hmem
    · by_cases hd : c = sep
      · exact Or.inl hd
      · right
        rw [splitOnChar_cons]
        cases hs : splitOnChar sep rest with
        | nil => exact absurd hs (splitOnChar_ne_nil sep rest)
        | cons p ps =>
          refine ⟨c :: p, ?_, List.mem_cons_self c p⟩
          simp [hd]
    · rcases ih hmem with h | ⟨part, hp, hcp⟩
      · exact Or.inl h
      · right
        rw [splitOnChar_cons]
        cases hs : splitOnChar sep rest with
        | nil => exact absurd hs (splitOnChar_ne_nil sep rest)
        | cons p ps =>
          rw [hs] at hp
          dsimp only
          by_cases hd : d = sep
          · refine ⟨part, ?_, hcp⟩
            simp only [hd, if_pos rfl]
            exact List.mem_cons_of_mem _ hp
          · rcases List.mem_cons.mp hp with rfl | hps
            · refine ⟨d :: part, ?_, List.mem_cons_of_mem _ hcp⟩
              simp [hd]
            · refine ⟨part, ?_, hcp⟩
              simp only [if_neg hd]
              exact List.mem_cons_of_mem _ hps

/-! ### Facts about the date parser -/

theorem parseDateChars_split3 {l ms ds ys : List Char}
    (hs : splitOnChar '/' l = [ms, ds, ys]) :
    parseDateChars l =
      if ms.all isDigitC ∧ ds.all isDigitC ∧ ys.all isDigitC
          ∧ 1 ≤ ms.length ∧ ms.length ≤ 2 ∧ 1 ≤ ds.length ∧ ds.length ≤ 2
          ∧ ys.length = 4 then
        if 1 ≤ digitsToNat ms ∧ digitsToNat ms ≤ 12 ∧ 1 ≤ digitsToNat ds
            ∧ digitsToNat ds ≤ daysInMonth (digitsToNat ms) (digitsToNat ys)
            ∧ 1 ≤ digitsToNat ys then
          some ⟨digitsToNat ms, digitsToNat ds, digitsToNat ys⟩
        else none
      else none := by
  unfold parseDateChars
  rw [hs]

theorem parseDateChars_valid {l : List Char} {d : CalDate}
    (h : parseDateChars l = some d) : validDateB d = true := by
  rcases hsplit : splitOnChar '/' l with _ | ⟨ms, _ | ⟨ds, _ | ⟨ys, _ | ⟨z, zs⟩⟩⟩⟩
  · rw [show parseDateChars l = none from by unfold parseDateChars; rw [hsplit]]
      at h
    simp at h
  · rw [show parseDateChars l = none from by unfold parseDateChars; rw [hsplit]]
      at h
    simp at h
  · rw [show parseDateChars l = none from by unfold parseDateChars; rw [hsplit]]
      at h
    simp at h
  · rw [parseDateChars_split3 hsplit] at h
    split_ifs at h with h1 h2
    obtain ⟨hmd, hdd, hyd, _, _, _, _, hylen⟩ := h1
    obtain ⟨hm1, hm2, hd1, hd2, hy1⟩ := h2
    injection h with h
    subst h
    simp only [validDateB, Bool.and_eq_true, decide_eq_true_eq]
    refine ⟨⟨⟨⟨⟨hm1, hm2⟩, hd1⟩, hd2⟩, hy1⟩, ?_⟩
    exact digitsToNat_le_9999 hyd hylen
  · rw [show parseDateChars l = none from by unfold parseDateChars; rw [hsplit]]
      at h
    simp at h

theorem parseDateChars_mem {l : List Char} {d : CalDate}
    (h : parseDateChars l = some d) :
    ∀ c ∈ l, isDigitC c = true ∨ c = '/' := by
  intro c hc
  rcases @mem_splitOnChar '/' _ _ hc with h1 | ⟨part, hpart, hcp⟩
  · exact Or.inr h1
  · left
    rcases hsplit : splitOnChar '/' l with _ | ⟨ms, _ | ⟨ds, _ | ⟨ys, _ | ⟨z, zs⟩⟩⟩⟩
    · rw [show parseDateChars l = none from by unfold parseDateChars; rw [hsplit]]
        at h
      simp at h
    · rw [show parseDateChars l = none from by unfold parseDateChars; rw [hsplit]]
        at h
      simp at h
    · rw [show parseDateChars l = none from by unfold parseDateChars; rw [hsplit]]
        at h
      simp at h
    · rw [parseDateChars_split3 hsplit] at h
      split_ifs at h with h1 h2
      obtain ⟨hmd, hdd, hyd, _⟩ := h1
      rw [hsplit] at hpart
      rcases List.mem_cons.mp hpart with rfl | hpart2
      · exact List.all_eq_true.mp hmd c hcp
      · rcases List.mem_cons.mp hpart2 with rfl | hpart3
        · exact List.all_eq_true.mp hdd c hcp
        · rcases List.mem_cons.mp hpart3 with rfl | hpart4
          · exact List.all_eq_true.mp hyd c hcp
          · simp at hpart4
    · rw [show parseDateChars l = none from by unfold parseDateChars; rw [hsplit]]
        at h
      simp at h

theorem isPySpace_cases {c : Char} (h : isPySpace c = true) :
    c = ' ' ∨ c = '\t' ∨ c = '\n' ∨ c = '\r' ∨ c = '\x0b' ∨ c = '\x0c' := by
  simp only [isPySpace, Bool.or_eq_true, decide_eq_true_eq] at h
  tauto

theorem parseDate_none_of_space {s : String}
    (h : ∃ c ∈ s.data, isPySpace c = true) : parseDate s = none := by
  obtain ⟨c, hc, hsp⟩ := h
  cases hparse : parseDate s with
  | none => rfl
  | some d =>
    exfalso
    have hmem := @parseDateChars_mem s.data d hparse c hc
    rcases isPySpace_cases hsp with rfl | rfl | rfl | rfl | rfl | rfl <;>
      rcases hmem with hdig | hslash <;>
      first
        | exact absurd hdig (by decide)
        | exact absurd hslash (by decide)

theorem parseDate_mmddyyyy {d : CalDate} (h : validDateB d = true) :
    parseDate (mmddyyyy d) = some d := by
  obtain ⟨m, dd, y⟩ := d
  simp only [validDateB, Bool.and_eq_true, decide_eq_true_eq] at h
  obtain ⟨⟨⟨⟨⟨h1, h2⟩, h3⟩, h4⟩, h5⟩, h6⟩ := h
  have hs : splitOnChar '/' (mmddyyyy ⟨m, dd, y⟩).data =
      [pad2 m, pad2 dd, pad4 y] := by
    show splitOnChar '/' (pad2 m ++ '/' :: (pad2 dd ++ '/' :: pad4 y)) = _
    rw [splitOnChar_append (slash_not_mem_pad2 m),
      splitOnChar_append (slash_not_mem_pad2 dd),
      splitOnChar_of_not_mem (slash_not_mem_pad4 y)]
  show parseDateChars (mmddyyyy ⟨m, dd, y⟩).data = some ⟨m, dd, y⟩
  rw [parseDateChars_split3 hs]
  rw [digitsToNat_pad2 (show m ≤ 99 by omega),
    digitsToNat_pad2 (show dd ≤ 99 by
      have h31 := daysInMonth_le_31 m y
      omega),
    digitsToNat_pad4 h6]
  rw [if_pos ⟨pad2_all_digits m, pad2_all_digits dd, pad4_all_digits y,
    by simp [pad2], by simp [pad2], by simp [pad2], by simp [pad2],
    by simp [pad4]⟩]
  rw [if_pos ⟨h1, h2, h3, h4, h5⟩]

/-! ### Deduplication -/

theorem dropDupsGo_sublist {α : Type} [DecidableEq α] (seen l : List α) :
    (dropDupsGo seen l).Sublist l := by
  induction l generalizing seen with
  | nil => simp [dropDupsGo]
  | cons a rest ih =>
    unfold dropDupsGo
    by_cases h : a ∈ seen
    · rw [if_pos h]
      exact (ih seen).trans (List.sublist_cons_self a rest)
    · rw [if_neg h]
      exact (ih (a :: seen)).cons₂ a

theorem mem_dropDupsGo {α : Type} [DecidableEq α] {seen l : List α} {x : α} :
    x ∈ dropDupsGo seen l ↔ x ∈ l ∧ x ∉ seen := by
  induction l generalizing seen with
  | nil => simp [dropDupsGo]
  | cons a rest ih =>
    unfold dropDupsGo
    by_cases h : a ∈ seen
    · rw [if_pos h, ih]
      constructor
      · rintro ⟨hr, hn⟩
        exact ⟨List.mem_cons_of_mem _ hr, hn⟩
      · rintro ⟨hr, hn⟩
        rcases List.mem_cons.mp hr with rfl | hr2
        · exact absurd h hn
        · exact ⟨hr2, hn⟩
    · rw [if_neg h]
      constructor
      · intro hx
        rcases List.mem_cons.mp hx with rfl | hx2
        · exact ⟨List.mem_cons_self _ _, h⟩
        · rcases ih.mp hx2 with ⟨hr, hn⟩
          refine ⟨List.mem_cons_of_mem _ hr, fun hs => hn ?_⟩
          exact List.mem_cons_of_mem _ hs
      · rintro ⟨hr, hn⟩
        rcases List.mem_cons.mp hr with rfl | hr2
        · exact List.mem_cons_self _ _
        · by_cases hxa : x = a
          · subst hxa
            exact List.mem_cons_self _ _
          · refine List.mem_cons_of_mem _ (ih.mpr ⟨hr2, ?_⟩)
            intro hs
            rcases List.mem_cons.mp hs with h1 | h2
            · exact hxa h1
            · exact hn h2

theorem nodup_dropDupsGo {α : Type} [DecidableEq α] (seen l : List α) :
    (dropDupsGo seen l).Nodup := by
  induction l generalizing seen with
  | nil => simp [dropDupsGo]
  | cons a rest ih =>
    unfold dropDupsGo
    by_cases h : a ∈ seen
    · rw [if_pos h]
      exact ih seen
    · rw [if_neg h]
      refine List.nodup_cons.mpr ⟨?_, ih (a :: seen)⟩
      rw [mem_dropDupsGo]
      rintro ⟨-, hn⟩
      exact hn (List.mem_cons_self a seen)

theorem dropDupsGo_eq_self {α : Type} [DecidableEq α] {seen l : List α}
    (hn : l.Nodup) (hd : ∀ x ∈ l, x ∉ seen) : dropDupsGo seen l = l := by
  induction l generalizing seen with
  | nil => rfl
  | cons a rest ih =>
    rw [List.nodup_cons] at hn
    unfold dropDupsGo
    rw [if_neg (hd a (List.mem_cons_self a rest))]
    congr 1
    refine ih hn.2 (fun x hx hs => ?_)
    rcases List.mem_cons.mp hs with rfl | hs2
    · exact hn.1 hx
    · exact hd x (List.mem_cons_of_mem _ hx) hs2

theorem dropDuplicates_eq_self {α : Type} [DecidableEq α] {l : List α}
    (hn : l.Nodup) : dropDuplicates l = l :=
  dropDupsGo_eq_self hn (by simp)

theorem dropDupsGo_eq_dedupSpec {α : Type} [DecidableEq α] (l : List α) :
    ∀ seen, dropDupsGo seen l = dedupSpec (l.filter (fun b => decide (b ∉ seen))) := by
  induction l with
  | nil =>
    intro seen
    rw [List.filter_nil]
    rw [show dedupSpec ([] : List α) = [] from by rw [dedupSpec]]
    rfl
  | cons a rest ih =>
    intro seen
    unfold dropDupsGo
    by_cases h : a ∈ seen
    · rw [if_pos h, ih seen, List.filter_cons]
      rw [if_neg (by simpa using h)]
    · rw [if_neg h, ih (a :: seen), List.filter_cons]
      rw [if_pos (by simpa using h)]
      rw [show dedupSpec (a :: rest.filter (fun b => decide (b ∉ seen))) =
        a :: dedupSpec ((rest.filter (fun b => decide (b ∉ seen))).filter
          (fun b => decide (b ≠ a))) from by rw [dedupSpec]]
      congr 1
      rw [List.filter_filter]
      apply congrArg
      apply List.filter_congr
      intro x hx
      simp only [List.mem_cons, decide_not, Bool.not_eq_true]
      by_cases hxa : x = a
      · subst hxa
        simp
      · by_cases hxs : x ∈ seen <;> simp [hxa, hxs]

theorem dropDuplicates_eq_dedupSpec {α : Type} [DecidableEq α] (l : List α) :
    dropDuplicates l = dedupSpec l := by
  rw [dropDuplicates, dropDupsGo_eq_dedupSpec l []]
  apply congrArg
  rw [List.filter_eq_self]
  intro a _
  simp

theorem dropDupsGo_cons {α : Type} [DecidableEq α] (seen : List α) (r : α)
    (rs : List α) :
    dropDupsGo seen (r :: rs) =
      if r ∈ seen then dropDupsGo seen rs else r :: dropDupsGo (r :: seen) rs :=
  rfl

theorem dropDupsGo_dup_inner {α : Type} [DecidableEq α] {r : α} {m : List α} :
    ∀ (l seen : List α), r ∈ seen ∨ r ∈ l →
      dropDupsGo seen (l ++ r :: m) = dropDupsGo seen (l ++ m) := by
  intro l
  induction l with
  | nil =>
    intro seen hs
    rcases hs with hs | hs
    · simp only [List.nil_append]
      rw [dropDupsGo_cons, if_pos hs]
    · simp at hs
  | cons a rest ih =>
    intro seen hs
    simp only [List.cons_append]
    rw [dropDupsGo_cons, dropDupsGo_cons]
    by_cases h : a ∈ seen
    · rw [if_pos h, if_pos h]
      apply ih
      rcases hs with hs | hs
      · exact Or.inl hs
      · rcases List.mem_cons.mp hs with rfl | hs2
        · exact Or.inl h
        · exact Or.inr hs2
    · rw [if_neg h, if_neg h]
      congr 1
      apply ih
      rcases hs with hs | hs
      · exact Or.inl (List.mem_cons_of_mem _ hs)
      · rcases List.mem_cons.mp hs with rfl | hs2
        · exact Or.inl (List.mem_cons_self _ _)
        · exact Or.inr hs2

/-! ### Pipeline plumbing -/

theorem exceptMapM_cons (f : List Cell → Except String (List Cell))
    (r : List Cell) (rs : List (List Cell)) :
    exceptMapM f (r :: rs) =
      match f r with
      | Except.error e => Except.error e
      | Except.ok r' =>
        match exceptMapM f rs with
        | Except.error e => Except.error e
        | Except.ok rs' => Except.ok (r' :: rs') := rfl

theorem exceptMapM_ok_iff {f : List Cell → Except String (List Cell)}
    {l l' : List (List Cell)} :
    exceptMapM f l = Except.ok l' ↔
      List.Forall₂ (fun a b => f a = Except.ok b) l l' := by
  induction l generalizing l' with
  | nil =>
    constructor
    · intro h
      injection h with h
      subst h
      exact List.Forall₂.nil
    · intro h
      cases h
      rfl
  | cons a rest ih =>
    rw [exceptMapM_cons]
    constructor
    · intro h
      cases hf : f a with
      | error e => rw [hf] at h; cases h
      | ok b =>
        rw [hf] at h
        cases hrest : exceptMapM f rest with
        | error e => rw [hrest] at h; cases h
        | ok bs =>
          rw [hrest] at h
          injection h with h
          subst h
          exact List.Forall₂.cons hf (ih.mp hrest)
    · intro h
      cases h with
      | cons hab hrest =>
        rw [hab, ih.mpr hrest]

theorem exceptMapM_map_ok {f : List Cell → Except String (List Cell)}
    {g h : List Cell → List Cell} {l : List (List Cell)}
    (hok : ∀ r ∈ l, f (h r) = Except.ok (g r)) :
    exceptMapM f (l.map h) = Except.ok (l.map g) := by
  induction l with
  | nil => rfl
  | cons a rest ih =>
    rw [List.map_cons, List.map_cons, exceptMapM_cons,
      hok a (List.mem_cons_self a rest),
      ih (fun r hr => hok r (List.mem_cons_of_mem _ hr))]

theorem exceptMapM_error_of_mem {f : List Cell → Except String (List Cell)}
    {l : List (List Cell)} {r : List Cell} (hr : r ∈ l) {e : String}
    (he : f r = Except.error e) :
    ∃ e', exceptMapM f l = Except.error e' := by
  induction l with
  | nil => simp at hr
  | cons a rest ih =>
    rw [exceptMapM_cons]
    rcases List.mem_cons.mp hr with rfl | hmem
    · exact ⟨e, by rw [he]⟩
    · cases hf : f a with
      | error e2 => exact ⟨e2, rfl⟩
      | ok a' =>
        obtain ⟨e', he'⟩ := ih hmem
        rw [he']
        exact ⟨e', rfl⟩

theorem colIdx?_get {name : String} {hs : List String} {i : Nat}
    (h : colIdx? name hs = some i) : hs[i]? = some name := by
  induction hs generalizing i with
  | nil => simp [colIdx?] at h
  | cons a rest ih =>
    unfold colIdx? at h
    by_cases ha : a = name
    · rw [if_pos ha] at h
      injection h with h
      subst h
      simp [ha]
    · rw [if_neg ha] at h
      rcases Option.map_eq_some'.mp h with ⟨j, hj, rfl⟩
      simpa using ih hj

theorem colIdx?_lt_length {name : String} {hs : List String} {i : Nat}
    (h : colIdx? name hs = some i) : i < hs.length := by
  have hg := colIdx?_get h
  rcases List.getElem?_eq_some.mp hg with ⟨hlt, -⟩
  exact hlt

theorem colIdx?_of_nodup {name : String} {hs : List String} {i : Nat}
    (hn : hs.Nodup) (h : hs[i]? = some name) : colIdx? name hs = some i := by
  induction hs generalizing i with
  | nil => simp at h
  | cons a rest ih =>
    rw [List.nodup_cons] at hn
    unfold colIdx?
    cases i with
    | zero =>
      simp only [List.getElem?_cons_zero, Option.some.injEq] at h
      rw [if_pos h]
    | succ j =>
      simp only [List.getElem?_cons_succ] at h
      have ha : a ≠ name := by
        rintro rfl
        exact hn.1 (List.getElem?_mem h)
      rw [if_neg ha, ih hn.2 h]
      rfl

theorem parseRowAt_ok_at {i : Nat} {r : List Cell} {x c : Cell}
    (hx : r[i]? = some x) (hp : parseCell x = Except.ok c) :
    parseRowAt i r = Except.ok (r.set i c) := by
  unfold parseRowAt
  rw [hx]
  dsimp only
  rw [hp]
  rfl

theorem parseRowAt_ok_none {i : Nat} {r : List Cell} (hx : r[i]? = none) :
    parseRowAt i r = Except.ok r := by
  unfold parseRowAt
  rw [hx]

theorem parseRowAt_error {i : Nat} {r : List Cell} {x : Cell}
    (hx : r[i]? = some x) {e : String} (hp : parseCell x = Except.error e) :
    parseRowAt i r = Except.error e := by
  unfold parseRowAt
  rw [hx]
  dsimp only
  rw [hp]
  rfl

theorem parseRowAt_ok_cases {i : Nat} {r r' : List Cell}
    (h : parseRowAt i r = Except.ok r') :
    (r[i]? = none ∧ r' = r) ∨
      ∃ x c, r[i]? = some x ∧ parseCell x = Except.ok c ∧ r' = r.set i c := by
  unfold parseRowAt at h
  cases hx : r[i]? with
  | none =>
    rw [hx] at h
    injection h with h
    exact Or.inl ⟨rfl, h.symm⟩
  | some x =>
    rw [hx] at h
    dsimp only at h
    cases hp : parseCell x with
    | error e =>
      rw [hp] at h
      dsimp only [Except.map] at h
      cases h
    | ok c =>
      rw [hp] at h
      dsimp only [Except.map] at h
      injection h with h
      exact Or.inr ⟨x, c, rfl, hp, h.symm⟩

theorem parseRowAt_length {i : Nat} {r r' : List Cell}
    (h : parseRowAt i r = Except.ok r') : r'.length = r.length := by
  rcases parseRowAt_ok_cases h with ⟨-, rfl⟩ | ⟨x, c, -, -, rfl⟩
  · rfl
  · exact List.length_set r i c

theorem parseRowAt_getElem_ne {i : Nat} {r r' : List Cell}
    (h : parseRowAt i r = Except.ok r') {j : Nat} (hj : j ≠ i) :
    r'[j]? = r[j]? := by
  rcases parseRowAt_ok_cases h with ⟨-, rfl⟩ | ⟨x, c, -, -, rfl⟩
  · rfl
  · rw [List.getElem?_set, if_neg (fun hh => hj hh.symm)]

theorem parseRowAt_getElem_eq {i : Nat} {r r' : List Cell}
    (h : parseRowAt i r = Except.ok r') {x : Cell} (hx : r[i]? = some x) :
    ∃ c, parseCell x = Except.ok c ∧ r'[i]? = some c := by
  rcases parseRowAt_ok_cases h with ⟨hnone, rfl⟩ | ⟨y, c, hy, hp, rfl⟩
  · rw [hx] at hnone; cases hnone
  · rw [hx] at hy
    injection hy with hy
    subst hy
    refine ⟨c, hp, ?_⟩
    rw [List.getElem?_set, if_pos rfl]
    rcases List.getElem?_eq_some.mp hx with ⟨hlt, -⟩
    rw [if_pos hlt]

theorem fillRow_getElem_some {h : List String} {r : List Cell} {j : Nat}
    {hn : String} {c : Cell} (hh : h[j]? = some hn) (hc : r[j]? = some c) :
    (fillRow h r)[j]? =
      some (if hn ∈ fillNames ∧ c = Cell.missing then Cell.num 0 else c) := by
  rw [fillRow, List.getElem?_zipWith, hh, hc]

theorem fillRow_getElem_rnone {h : List String} {r : List Cell} {j : Nat}
    (hc : r[j]? = none) : (fillRow h r)[j]? = none := by
  rw [fillRow, List.getElem?_zipWith, hc]
  cases h[j]? <;> rfl

theorem fillRow_getElem_hnone {h : List String} {r : List Cell} {j : Nat}
    (hh : h[j]? = none) : (fillRow h r)[j]? = none := by
  rw [fillRow, List.getElem?_zipWith, hh]

theorem fillRow_length {h : List String} {r : List Cell}
    (hlen : r.length = h.length) : (fillRow h r).length = r.length := by
  rw [fillRow, List.length_zipWith, hlen]
  exact Nat.min_self _

theorem parseColStep_ok_iff {name : String} {t : Table} {t' : Table} :
    parseColStep name t = Except.ok t' ↔
      ∃ i rs, colIdx? name t.header = some i ∧
        exceptMapM (parseRowAt i) t.rows = Except.ok rs ∧
        t' = ⟨t.header, rs⟩ := by
  constructor
  · intro h
    unfold parseColStep at h
    cases hc : colIdx? name t.header with
    | none => rw [hc] at h; cases h
    | some i =>
      rw [hc] at h
      dsimp only at h
      cases hm : exceptMapM (parseRowAt i) t.rows with
      | error e => rw [hm] at h; cases h
      | ok rs =>
        rw [hm] at h
        injection h with h
        exact ⟨i, rs, rfl, hm, h.symm⟩
  · rintro ⟨i, rs, hi, hrs, rfl⟩
    unfold parseColStep
    rw [hi]
    dsimp only
    rw [hrs]

theorem cleanTable_ok_iff {t t' : Table} :
    cleanTable t = Except.ok t' ↔
      ∃ iod isd rows1 rows2,
        colIdx? "Order Date" t.header = some iod ∧
        exceptMapM (parseRowAt iod) t.rows = Except.ok rows1 ∧
        colIdx? "Ship Date" t.header = some isd ∧
        exceptMapM (parseRowAt isd) rows1 = Except.ok rows2 ∧
        t' = fillStep (dedupStep (trimStep ⟨t.header, rows2⟩)) := by
  constructor
  · intro h
    unfold cleanTable at h
    cases h1 : parseColStep "Order Date" t with
    | error e => rw [h1] at h; cases h
    | ok t1 =>
      rw [h1] at h
      dsimp only at h
      obtain ⟨iod, rows1, hiod, hrows1, rfl⟩ := parseColStep_ok_iff.mp h1
      cases h2 : parseColStep "Ship Date" (⟨t.header, rows1⟩ : Table) with
      | error e => rw [h2] at h; cases h
      | ok t2 =>
        rw [h2] at h
        obtain ⟨isd, rows2, hisd, hrows2, rfl⟩ := parseColStep_ok_iff.mp h2
        injection h with h
        exact ⟨iod, isd, rows1, rows2, hiod, hrows1, hisd, hrows2, h.symm⟩
  · rintro ⟨iod, isd, rows1, rows2, hiod, hrows1, hisd, hrows2, rfl⟩
    unfold cleanTable
    rw [parseColStep_ok_iff.mpr ⟨iod, rows1, hiod, hrows1, rfl⟩]
    dsimp only
    have hs2 : parseColStep "Ship Date" (⟨t.header, rows1⟩ : Table) =
        Except.ok ⟨t.header, rows2⟩ :=
      parseColStep_ok_iff.mpr ⟨isd, rows2, hisd, hrows2, rfl⟩
    rw [hs2]

theorem cleanTable_error_left {t : Table} {e : String}
    (h : parseColStep "Order Date" t = Except.error e) :
    cleanTable t = Except.error e := by
  unfold cleanTable
  rw [h]

theorem cleanTable_error_right {t : Table} {t1 : Table} {e : String}
    (h1 : parseColStep "Order Date" t = Except.ok t1)
    (h2 : parseColStep "Ship Date" t1 = Except.error e) :
    cleanTable t = Except.error e := by
  unfold cleanTable
  rw [h1]
  dsimp only
  rw [h2]

/-! ### Table predicates and the processed-row correspondence -/

theorem rowFillSafe_spec {header : List String} {r : List Cell}
    (h : rowFillSafe header r = true) {j : Nat} {hn : String} {c : Cell}
    (hh : header[j]? = some hn) (hc : r[j]? = some c) (hf : hn ∈ fillNames) :
    renderCell c ≠ "" := by
  have hz : (List.zipWith
      (fun hn c => if hn ∈ fillNames then
          (if renderCell c = "" then false else true) else true)
      header r)[j]? =
      some (if hn ∈ fillNames then
        (if renderCell c = "" then false else true) else true) := by
    rw [List.getElem?_zipWith, hh, hc]
  have hmem := List.getElem?_mem hz
  have hall := List.all_eq_true.mp h _ hmem
  rw [if_pos hf] at hall
  intro hre
  rw [if_pos hre] at hall
  exact absurd hall (by simp)

theorem parseCell_missing_ok : parseCell Cell.missing = Except.ok Cell.missing :=
  rfl

theorem parseCell_date_ok (d : CalDate) :
    parseCell (Cell.date d) = Except.ok (Cell.date d) := rfl

theorem parseCell_str_of_parse {s : String} {d : CalDate}
    (h : parseDate s = some d) :
    parseCell (Cell.str s) = Except.ok (Cell.date d) := by
  unfold parseCell
  dsimp only
  rw [h]

theorem parseCell_str_err {s : String} (h : parseDate s = none) :
    parseCell (Cell.str s) = Except.error "ParseError" := by
  unfold parseCell
  dsimp only
  rw [h]

theorem parseCell_text_ok {x c : Cell} (ht : isTextCell x = true)
    (h : parseCell x = Except.ok c) : dateCellOK c := by
  cases x with
  | str s =>
    unfold parseCell at h
    dsimp only at h
    cases hp : parseDate s with
    | none => rw [hp] at h; cases h
    | some d =>
      rw [hp] at h
      injection h with h
      subst h
      exact Or.inl ⟨d, rfl, parseDateChars_valid hp⟩
  | num n => simp [isTextCell] at ht
  | date d => simp [isTextCell] at ht
  | missing =>
    injection h with h
    subst h
    exact Or.inr rfl

theorem forall₂_mem_left {α β : Type} {R : α → β → Prop} {l : List α}
    {l' : List β} (h : List.Forall₂ R l l') {a : α} (ha : a ∈ l) :
    ∃ b ∈ l', R a b := by
  induction h with
  | nil => simp at ha
  | cons hR hrest ih =>
    rcases List.mem_cons.mp ha with rfl | ha2
    · exact ⟨_, List.mem_cons_self _ _, hR⟩
    · obtain ⟨b, hb, hab⟩ := ih ha2
      exact ⟨b, List.mem_cons_of_mem _ hb, hab⟩

theorem forall₂_mem_right {α β : Type} {R : α → β → Prop} {l : List α}
    {l' : List β} (h : List.Forall₂ R l l') {b : β} (hb : b ∈ l') :
    ∃ a ∈ l, R a b := by
  induction h with
  | nil => simp at hb
  | cons hR hrest ih =>
    rcases List.mem_cons.mp hb with rfl | hb2
    · exact ⟨_, List.mem_cons_self _ _, hR⟩
    · obtain ⟨a, ha, hab⟩ := ih hb2
      exact ⟨a, List.mem_cons_of_mem _ ha, hab⟩

theorem date_idx_ne {hs : List String} {iod isd : Nat}
    (h1 : colIdx? "Order Date" hs = some iod)
    (h2 : colIdx? "Ship Date" hs = some isd) : iod ≠ isd := by
  intro he
  subst he
  have g1 := colIdx?_get h1
  have g2 := colIdx?_get h2
  rw [g1] at g2
  injection g2 with g2
  exact absurd g2 (by decide)

theorem cleanTable_rows {t t' : Table} (h : cleanTable t = Except.ok t')
    {iod isd : Nat} (hiod : colIdx? "Order Date" t.header = some iod)
    (hisd : colIdx? "Ship Date" t.header = some isd) :
    t'.header = t.header.map pystrip ∧
    ∃ rows1 rows2,
      List.Forall₂ (fun r r1 => parseRowAt iod r = Except.ok r1) t.rows rows1 ∧
      List.Forall₂ (fun r1 r2 => parseRowAt isd r1 = Except.ok r2) rows1 rows2 ∧
      t'.rows = (dropDuplicates (rows2.map trimRow)).map
        (fillRow (t.header.map pystrip)) := by
  obtain ⟨iod', isd', rows1, rows2, hiod', hrows1, hisd', hrows2, rfl⟩ :=
    cleanTable_ok_iff.mp h
  injection hiod'.symm.trans hiod with hio
  subst hio
  injection hisd'.symm.trans hisd with his
  subst his
  exact ⟨rfl, rows1, rows2, exceptMapM_ok_iff.mp hrows1,
    exceptMapM_ok_iff.mp hrows2, rfl⟩

theorem cleanTable_mem_image {t t' : Table} (h : cleanTable t = Except.ok t')
    {iod isd : Nat} (hiod : colIdx? "Order Date" t.header = some iod)
    (hisd : colIdx? "Ship Date" t.header = some isd) {r : List Cell}
    (hr : r ∈ t.rows) :
    ∃ r1 r2, parseRowAt iod r = Except.ok r1 ∧
      parseRowAt isd r1 = Except.ok r2 ∧
      fillRow (t.header.map pystrip) (trimRow r2) ∈ t'.rows := by
  obtain ⟨-, rows1, rows2, hf1, hf2, hrows⟩ := cleanTable_rows h hiod hisd
  obtain ⟨r1, hr1, hp1⟩ := forall₂_mem_left hf1 hr
  obtain ⟨r2, hr2, hp2⟩ := forall₂_mem_left hf2 hr1
  refine ⟨r1, r2, hp1, hp2, ?_⟩
  rw [hrows]
  refine List.mem_map_of_mem _ ?_
  rw [dropDuplicates, mem_dropDupsGo]
  exact ⟨List.mem_map_of_mem _ hr2, by simp⟩

theorem cleanTable_mem_rev {t t' : Table} (h : cleanTable t = Except.ok t')
    {iod isd : Nat} (hiod : colIdx? "Order Date" t.header = some iod)
    (hisd : colIdx? "Ship Date" t.header = some isd) {q : List Cell}
    (hq : q ∈ t'.rows) :
    ∃ r ∈ t.rows, ∃ r1 r2, parseRowAt iod r = Except.ok r1 ∧
      parseRowAt isd r1 = Except.ok r2 ∧
      q = fillRow (t.header.map pystrip) (trimRow r2) := by
  obtain ⟨-, rows1, rows2, hf1, hf2, hrows⟩ := cleanTable_rows h hiod hisd
  rw [hrows] at hq
  obtain ⟨p, hp, rfl⟩ := List.mem_map.mp hq
  rw [dropDuplicates, mem_dropDupsGo] at hp
  obtain ⟨r2, hr2, rfl⟩ := List.mem_map.mp hp.1
  obtain ⟨r1, hr1, hp2⟩ := forall₂_mem_right hf2 hr2
  obtain ⟨r, hr, hp1⟩ := forall₂_mem_right hf1 hr1
  exact ⟨r, hr, r1, r2, hp1, hp2, rfl⟩

theorem trimCell_of_dateCellOK {c : Cell} (h : dateCellOK c) :
    trimCell c = c := by
  rcases h with ⟨d, rfl, -⟩ | rfl <;> rfl

theorem pystrip_order_date : pystrip "Order Date" = "Order Date" := by decide

theorem pystrip_ship_date : pystrip "Ship Date" = "Ship Date" := by decide

theorem order_date_not_fill : "Order Date" ∉ fillNames := by decide

theorem ship_date_not_fill : "Ship Date" ∉ fillNames := by decide

/-- Shape invariants of the cleaner's output: the header is the trimmed
input header, rows are rectangular, the two date columns hold only parsed
dates or missing markers, and every other column holds only trimmed
strings, the fill value 0, or missing markers. -/
theorem cleanTable_inv {t t₁ : Table} (hwf : WF t) (htext : textOnly t)
    (h : cleanTable t = Except.ok t₁) {iod isd : Nat}
    (hiod : colIdx? "Order Date" t.header = some iod)
    (hisd : colIdx? "Ship Date" t.header = some isd) :
    (∀ x ∈ t₁.header, pystrip x = x) ∧
    t₁.header[iod]? = some "Order Date" ∧
    t₁.header[isd]? = some "Ship Date" ∧
    t₁.header.length = t.header.length ∧
    ∀ q ∈ t₁.rows,
      q.length = t.header.length ∧
      (∀ j c, (j = iod ∨ j = isd) → q[j]? = some c → dateCellOK c) ∧
      (∀ j c, j ≠ iod → j ≠ isd → q[j]? = some c → otherCellOK c) := by
  have hne := date_idx_ne hiod hisd
  obtain ⟨hhdr, rows1, rows2, hf1, hf2, hrows⟩ := cleanTable_rows h hiod hisd
  have hhdrlen : t₁.header.length = t.header.length := by
    rw [hhdr, List.length_map]
  refine ⟨?_, ?_, ?_, hhdrlen, ?_⟩
  · intro x hx
    rw [hhdr] at hx
    obtain ⟨y, -, rfl⟩ := List.mem_map.mp hx
    exact pystrip_idem y
  · rw [hhdr, List.getElem?_map, colIdx?_get hiod]
    simp [pystrip_order_date]
  · rw [hhdr, List.getElem?_map, colIdx?_get hisd]
    simp [pystrip_ship_date]
  · intro q hq
    rw [hrows] at hq
    obtain ⟨p, hp, rfl⟩ := List.mem_map.mp hq
    rw [dropDuplicates, mem_dropDupsGo] at hp
    obtain ⟨r2, hr2, rfl⟩ := List.mem_map.mp hp.1
    obtain ⟨r1, hr1, hp2⟩ := forall₂_mem_right hf2 hr2
    obtain ⟨r, hr, hp1⟩ := forall₂_mem_right hf1 hr1
    have hrlen : r.length = t.header.length := hwf r hr
    have hr1len : r1.length = t.header.length := by
      rw [parseRowAt_length hp1, hrlen]
    have hr2len : r2.length = t.header.length := by
      rw [parseRowAt_length hp2, hr1len]
    have htrimlen : (trimRow r2).length = t.header.length := by
      rw [trimRow, List.length_map, hr2len]
    have hfilllen :
        (fillRow (t.header.map pystrip) (trimRow r2)).length =
          t.header.length := by
      rw [fillRow_length (by rw [htrimlen, List.length_map]), htrimlen]
    refine ⟨hfilllen, ?_, ?_⟩
    · intro j c hj hc
      have hjlt : j < t.header.length := by
        rcases List.getElem?_eq_some.mp hc with ⟨hlt, -⟩
        rw [hfilllen] at hlt
        exact hlt
      obtain ⟨hn, hhn⟩ : ∃ hn, (t.header.map pystrip)[j]? = some hn := by
        have : j < (t.header.map pystrip).length := by
          rw [List.length_map]; exact hjlt
        exact ⟨_, List.getElem?_eq_getElem this⟩
      obtain ⟨c0, hc0⟩ : ∃ c0, r[j]? = some c0 := by
        have : j < r.length := by rw [hrlen]; exact hjlt
        exact ⟨_, List.getElem?_eq_getElem this⟩
      have hc0text : isTextCell c0 = true :=
        htext r hr c0 (List.getElem?_mem hc0)
      -- after the two parse steps the cell at a date column is a parsed
      -- text cell
      have hcell2 : ∃ c2, r2[j]? = some c2 ∧ dateCellOK c2 := by
        rcases hj with rfl | rfl
        · obtain ⟨c1, hpc, hr1j⟩ := parseRowAt_getElem_eq hp1 hc0
          have : r2[j]? = some c1 := by
            rw [parseRowAt_getElem_ne hp2 hne]
            exact hr1j
          exact ⟨c1, this, parseCell_text_ok hc0text hpc⟩
        · have hr1j : r1[j]? = some c0 := by
            rw [parseRowAt_getElem_ne hp1 hne.symm]
            exact hc0
          obtain ⟨c2, hpc, hr2j⟩ := parseRowAt_getElem_eq hp2 hr1j
          exact ⟨c2, hr2j, parseCell_text_ok hc0text hpc⟩
      obtain ⟨c2, hr2j, hok⟩ := hcell2
      have htrimj : (trimRow r2)[j]? = some c2 := by
        rw [trimRow, List.getElem?_map, hr2j]
        simp [trimCell_of_dateCellOK hok]
      rw [fillRow_getElem_some hhn htrimj] at hc
      -- the date columns are not fill columns
      have hnfill : hn ∉ fillNames := by
        rcases hj with rfl | rfl
        · rw [List.getElem?_map, colIdx?_get hiod] at hhn
          simp only [Option.map_some', Option.some.injEq] at hhn
          rw [← hhn, pystrip_order_date]
          exact order_date_not_fill
        · rw [List.getElem?_map, colIdx?_get hisd] at hhn
          simp only [Option.map_some', Option.some.injEq] at hhn
          rw [← hhn, pystrip_ship_date]
          exact ship_date_not_fill
      rw [if_neg (fun hand => hnfill hand.1)] at hc
      injection hc with hc
      subst hc
      exact hok
    · intro j c hj1 hj2 hc
      have hjlt : j < t.header.length := by
        rcases List.getElem?_eq_some.mp hc with ⟨hlt, -⟩
        rw [hfilllen] at hlt
        exact hlt
      obtain ⟨hn, hhn⟩ : ∃ hn, (t.header.map pystrip)[j]? = some hn := by
        have : j < (t.header.map pystrip).length := by
          rw [List.length_map]; exact hjlt
        exact ⟨_, List.getElem?_eq_getElem this⟩
      obtain ⟨c0, hc0⟩ : ∃ c0, r[j]? = some c0 := by
        have : j < r.length := by rw [hrlen]; exact hjlt
        exact ⟨_, List.getElem?_eq_getElem this⟩
      have hc0text : isTextCell c0 = true :=
        htext r hr c0 (List.getElem?_mem hc0)
      have hr2j : r2[j]? = some c0 := by
        rw [parseRowAt_getElem_ne hp2 hj2, parseRowAt_getElem_ne hp1 hj1]
        exact hc0
      have htrimj : (trimRow r2)[j]? = some (trimCell c0) := by
        rw [trimRow, List.getElem?_map, hr2j]
        rfl
      rw [fillRow_getElem_some hhn htrimj] at hc
      injection hc with hc
      subst hc
      by_cases hfill : hn ∈ fillNames ∧ trimCell c0 = Cell.missing
      · rw [if_pos hfill]
        exact Or.inr (Or.inl rfl)
      · rw [if_neg hfill]
        cases c0 with
        | str s => exact Or.inl ⟨pystrip s, rfl, pystrip_idem s⟩
        | num n => simp [isTextCell] at hc0text
        | date d => simp [isTextCell] at hc0text
        | missing => exact Or.inr (Or.inr rfl)

/-! ### The second pass over a written-and-reloaded table -/

theorem rtRow1_length (iod : Nat) (q : List Cell) :
    (rtRow1 iod q).length = q.length := by
  rw [rtRow1, List.length_set, List.length_map]

theorem rtRow2_length (iod isd : Nat) (q : List Cell) :
    (rtRow2 iod isd q).length = q.length := by
  rw [rtRow2, List.length_set, rtRow1_length]

theorem parseCell_reinput {c : Cell} (h : dateCellOK c) :
    parseCell (reinputCell c) = Except.ok c := by
  rcases h with ⟨d, rfl, hv⟩ | rfl
  · exact parseCell_str_of_parse (parseDate_mmddyyyy hv)
  · rfl

theorem parseRowAt_reinput {iod : Nat} {q : List Cell}
    (hok : ∀ c, q[iod]? = some c → dateCellOK c) :
    parseRowAt iod (q.map reinputCell) = Except.ok (rtRow1 iod q) := by
  cases hq : q[iod]? with
  | none =>
    have hm : (q.map reinputCell)[iod]? = none := by
      rw [List.getElem?_map, hq]
      rfl
    rw [parseRowAt_ok_none hm, rtRow1]
    have hlen : q.length ≤ iod := by
      by_contra hlt
      rw [List.getElem?_eq_getElem (Nat.lt_of_not_le hlt)] at hq
      cases hq
    rw [List.set_eq_of_length_le (by rw [List.length_map]; exact hlen)]
  | some c =>
    have hm : (q.map reinputCell)[iod]? = some (reinputCell c) := by
      rw [List.getElem?_map, hq]
      rfl
    rw [parseRowAt_ok_at hm (parseCell_reinput (hok c hq)), rtRow1]
    rw [List.getD_eq_getElem?_getD, hq]
    rfl

theorem parseRowAt_reinput2 {iod isd : Nat} {q : List Cell} (hne : iod ≠ isd)
    (hok : ∀ c, q[isd]? = some c → dateCellOK c) :
    parseRowAt isd (rtRow1 iod q) = Except.ok (rtRow2 iod isd q) := by
  cases hq : q[isd]? with
  | none =>
    have hm : (rtRow1 iod q)[isd]? = none := by
      rw [rtRow1, List.getElem?_set, if_neg hne, List.getElem?_map, hq]
      rfl
    rw [parseRowAt_ok_none hm, rtRow2]
    have hlen : q.length ≤ isd := by
      by_contra hlt
      rw [List.getElem?_eq_getElem (Nat.lt_of_not_le hlt)] at hq
      cases hq
    rw [List.set_eq_of_length_le (by rw [rtRow1_length]; exact hlen)]
  | some c =>
    have hm : (rtRow1 iod q)[isd]? = some (reinputCell c) := by
      rw [rtRow1, List.getElem?_set, if_neg hne, List.getElem?_map, hq]
      rfl
    rw [parseRowAt_ok_at hm (parseCell_reinput (hok c hq)), rtRow2]
    rw [List.getD_eq_getElem?_getD, hq]
    rfl

theorem rtRow2_getElem (iod isd : Nat) (q : List Cell) (j : Nat) :
    (rtRow2 iod isd q)[j]? =
      if j = iod ∨ j = isd then q[j]? else (q[j]?).map reinputCell := by
  rw [rtRow2, List.getElem?_set]
  by_cases hisd : isd = j
  · subst hisd
    rw [if_pos rfl, rtRow1_length]
    by_cases hlt : isd < q.length
    · rw [if_pos hlt, if_pos (Or.inr rfl), List.getD_eq_getElem?_getD,
        List.getElem?_eq_getElem hlt]
      rfl
    · rw [if_neg hlt, if_pos (Or.inr rfl),
        List.getElem?_eq_none (Nat.le_of_not_lt hlt)]
  · rw [if_neg hisd, rtRow1, List.getElem?_set]
    by_cases hiod : iod = j
    · subst hiod
      rw [if_pos rfl, List.length_map]
      by_cases hlt : iod < q.length
      · rw [if_pos hlt, if_pos (Or.inl rfl), List.getD_eq_getElem?_getD,
          List.getElem?_eq_getElem hlt]
        rfl
      · rw [if_neg hlt, if_pos (Or.inl rfl),
          List.getElem?_eq_none (Nat.le_of_not_lt hlt)]
    · rw [if_neg hiod, List.getElem?_map,
        if_neg (by
          rintro (rfl | rfl)
          · exact hiod rfl
          · exact hisd rfl)]

theorem trimCell_reinput_other {c : Cell} (h : otherCellOK c) :
    trimCell (reinputCell c) = reinputCell c := by
  rcases h with ⟨s, rfl, hs⟩ | rfl | rfl
  · show trimCell (readCell s) = readCell s
    unfold readCell
    by_cases he : s = ""
    · rw [if_pos he]
      rfl
    · rw [if_neg he]
      show Cell.str (pystrip s) = Cell.str s
      rw [hs]
  · decide
  · rfl

theorem renderCell_reinput_other {c : Cell} (h : otherCellOK c) :
    renderCell (reinputCell c) = renderCell c := by
  rcases h with ⟨s, rfl, -⟩ | rfl | rfl
  · show renderCell (readCell s) = s
    unfold readCell
    by_cases he : s = ""
    · rw [if_pos he, he]
      rfl
    · rw [if_neg he]
      rfl
  · decide
  · rfl

theorem reinput_ne_missing {c : Cell} (h : otherCellOK c)
    (hr : renderCell c ≠ "") : reinputCell c ≠ Cell.missing := by
  rcases h with ⟨s, rfl, -⟩ | rfl | rfl
  · show readCell s ≠ _
    unfold readCell
    rw [if_neg (by exact hr)]
    simp
  · decide
  · exact absurd rfl hr

theorem map_reinput_eq_of_rtRow2_eq {iod isd : Nat} {q1 q2 : List Cell}
    (h : rtRow2 iod isd q1 = rtRow2 iod isd q2) :
    q1.map reinputCell = q2.map reinputCell := by
  apply List.ext_getElem?
  intro j
  have hj := congrArg (fun l => l[j]?) h
  simp only [rtRow2_getElem] at hj
  rw [List.getElem?_map, List.getElem?_map]
  by_cases hcase : j = iod ∨ j = isd
  · rw [if_pos hcase, if_pos hcase] at hj
    rw [hj]
  · rw [if_neg hcase, if_neg hcase] at hj
    exact hj

/-- Workhorse for the idempotence claim: rerunning the pipeline on the
written-and-reloaded output reproduces the output's serialization, under
the three side conditions discussed at the claim. -/
theorem cleanTable_second_pass {t t₁ : Table} (hwf : WF t)
    (htext : textOnly t) (h : cleanTable t = Except.ok t₁)
    (hnodupH : t₁.header.Nodup)
    (hnodupR : (t₁.rows.map (List.map reinputCell)).Nodup)
    (hfill : noEmptyFillCells t₁) :
    ∃ t₂, cleanTable (reinputTable t₁) = Except.ok t₂ ∧
      renderTable t₂ = renderTable t₁ := by
  obtain ⟨iod, isd, rows1x, rows2x, hiod, -, hisd, -, -⟩ :=
    cleanTable_ok_iff.mp h
  obtain ⟨hstrip, hOD, hSD, hhlen, hinv⟩ := cleanTable_inv hwf htext h hiod hisd
  have hne := date_idx_ne hiod hisd
  have hiod1 : colIdx? "Order Date" t₁.header = some iod :=
    colIdx?_of_nodup hnodupH hOD
  have hisd1 : colIdx? "Ship Date" t₁.header = some isd :=
    colIdx?_of_nodup hnodupH hSD
  have hstep1 : exceptMapM (parseRowAt iod) (reinputTable t₁).rows =
      Except.ok (t₁.rows.map (rtRow1 iod)) :=
    exceptMapM_map_ok (fun q hq =>
      parseRowAt_reinput (fun c hc => (hinv q hq).2.1 iod c (Or.inl rfl) hc))
  have hstep2 : exceptMapM (parseRowAt isd) (t₁.rows.map (rtRow1 iod)) =
      Except.ok (t₁.rows.map (rtRow2 iod isd)) :=
    exceptMapM_map_ok (fun q hq =>
      parseRowAt_reinput2 hne
        (fun c hc => (hinv q hq).2.1 isd c (Or.inr rfl) hc))
  have hok2 : cleanTable (reinputTable t₁) = Except.ok
      (fillStep (dedupStep (trimStep
        ⟨t₁.header, t₁.rows.map (rtRow2 iod isd)⟩))) :=
    cleanTable_ok_iff.mpr ⟨iod, isd, _, _, hiod1, hstep1, hisd1, hstep2, rfl⟩
  have hhdr1 : t₁.header.map pystrip = t₁.header := by
    have hm : t₁.header.map pystrip = t₁.header.map id :=
      List.map_eq_map_iff.mpr (fun x hx => hstrip x hx)
    rw [hm, List.map_id]
  have htrimrow : ∀ q ∈ t₁.rows,
      trimRow (rtRow2 iod isd q) = rtRow2 iod isd q := by
    intro q hq
    apply List.ext_getElem?
    intro j
    rw [trimRow, List.getElem?_map, rtRow2_getElem]
    by_cases hcase : j = iod ∨ j = isd
    · rw [if_pos hcase]
      cases hc : q[j]? with
      | none => rfl
      | some c =>
        have hok := (hinv q hq).2.1 j c hcase hc
        simp [hc, trimCell_of_dateCellOK hok]
    · rw [if_neg hcase]
      cases hc : q[j]? with
      | none => rfl
      | some c =>
        have h1 : j ≠ iod := fun hh => hcase (Or.inl hh)
        have h2 : j ≠ isd := fun hh => hcase (Or.inr hh)
        have hok := (hinv q hq).2.2 j c h1 h2 hc
        simp [hc, trimCell_reinput_other hok]
  have htrim : trimStep ⟨t₁.header, t₁.rows.map (rtRow2 iod isd)⟩ =
      ⟨t₁.header, t₁.rows.map (rtRow2 iod isd)⟩ := by
    rw [trimStep]
    refine congrArg₂ Table.mk hhdr1 ?_
    rw [List.map_map]
    exact List.map_eq_map_iff.mpr (fun q hq => htrimrow q hq)
  have hnodup2 : (t₁.rows.map (rtRow2 iod isd)).Nodup := by
    have hpw : List.Pairwise
        (fun a b => List.map reinputCell a ≠ List.map reinputCell b)
        t₁.rows := by
      have hh : List.Pairwise (fun a b : List Cell => a ≠ b)
          (t₁.rows.map (List.map reinputCell)) := hnodupR
      rwa [List.pairwise_map] at hh
    show List.Pairwise (fun a b : List Cell => a ≠ b)
      (t₁.rows.map (rtRow2 iod isd))
    rw [List.pairwise_map]
    exact hpw.imp (fun hab hr => hab (map_reinput_eq_of_rtRow2_eq hr))
  have hdedup : dedupStep ⟨t₁.header, t₁.rows.map (rtRow2 iod isd)⟩ =
      ⟨t₁.header, t₁.rows.map (rtRow2 iod isd)⟩ := by
    rw [dedupStep]
    exact congrArg (Table.mk t₁.header) (dropDuplicates_eq_self hnodup2)
  have hfillrow : ∀ q ∈ t₁.rows,
      fillRow t₁.header (rtRow2 iod isd q) = rtRow2 iod isd q := by
    intro q hq
    apply List.ext_getElem?
    intro j
    cases hh : t₁.header[j]? with
    | none =>
      rw [fillRow_getElem_hnone hh]
      have hqlen : q.length = t.header.length := (hinv q hq).1
      have hlj : (rtRow2 iod isd q).length ≤ j := by
        rw [rtRow2_length, hqlen, ← hhlen]
        exact List.getElem?_eq_none_iff.mp hh
      exact (List.getElem?_eq_none hlj).symm
    | some hn =>
      cases hp : (rtRow2 iod isd q)[j]? with
      | none => rw [fillRow_getElem_rnone hp]
      | some v =>
        rw [fillRow_getElem_some hh hp]
        have hcond : ¬(hn ∈ fillNames ∧ v = Cell.missing) := by
          rintro ⟨hfn, rfl⟩
          have h1 : j ≠ iod := by
            rintro rfl
            rw [hOD] at hh
            injection hh with hh
            rw [← hh] at hfn
            exact order_date_not_fill hfn
          have h2 : j ≠ isd := by
            rintro rfl
            rw [hSD] at hh
            injection hh with hh
            rw [← hh] at hfn
            exact ship_date_not_fill hfn
          rw [rtRow2_getElem,
            if_neg (by rintro (rfl | rfl) <;> [exact h1 rfl; exact h2 rfl])]
            at hp
          obtain ⟨c, hc, hrc⟩ := Option.map_eq_some'.mp hp
          have hok := (hinv q hq).2.2 j c h1 h2 hc
          have hrender := rowFillSafe_spec (hfill q hq) hh hc hfn
          exact reinput_ne_missing hok hrender hrc
        rw [if_neg hcond]
  have hfillstep : fillStep ⟨t₁.header, t₁.rows.map (rtRow2 iod isd)⟩ =
      ⟨t₁.header, t₁.rows.map (rtRow2 iod isd)⟩ := by
    rw [fillStep]
    refine congrArg (Table.mk t₁.header) ?_
    rw [List.map_map]
    exact List.map_eq_map_iff.mpr (fun q hq => hfillrow q hq)
  rw [htrim, hdedup, hfillstep] at hok2
  refine ⟨⟨t₁.header, t₁.rows.map (rtRow2 iod isd)⟩, hok2, ?_⟩
  rw [renderTable, renderTable]
  refine congrArg (List.cons t₁.header) ?_
  rw [List.map_map]
  apply List.map_eq_map_iff.mpr
  intro q hq
  apply List.ext_getElem?
  intro j
  show (List.map renderCell (rtRow2 iod isd q))[j]? =
    (List.map renderCell q)[j]?
  rw [List.getElem?_map, List.getElem?_map, rtRow2_getElem]
  by_cases hcase : j = iod ∨ j = isd
  · rw [if_pos hcase]
  · rw [if_neg hcase]
    cases hc : q[j]? with
    | none => rfl
    | some c =>
      have h1 : j ≠ iod := fun hh => hcase (Or.inl hh)
      have h2 : j ≠ isd := fun hh => hcase (Or.inr hh)
      have hok := (hinv q hq).2.2 j c h1 h2 hc
      simp [renderCell_reinput_other hok]

/-- A date cell that fails to parse aborts the pipeline with an error,
whichever of the two date columns it sits in. -/
theorem cleanTable_error_of_bad_date {t : Table} {iod isd : Nat}
    (hiod : colIdx? "Order Date" t.header = some iod)
    (hisd : colIdx? "Ship Date" t.header = some isd)
    {r : List Cell} (hr : r ∈ t.rows) {i : Nat} (hi : i = iod ∨ i = isd)
    {s : String} (hc : r[i]? = some (Cell.str s)) (hp : parseDate s = none) :
    ∃ e, cleanTable t = Except.error e := by
  rcases hi with rfl | rfl
  · have herr : parseRowAt i r = Except.error "ParseError" :=
      parseRowAt_error hc (parseCell_str_err hp)
    obtain ⟨e', he'⟩ := exceptMapM_error_of_mem hr herr
    have hps : parseColStep "Order Date" t = Except.error e' := by
      unfold parseColStep
      rw [hiod]
      dsimp only
      rw [he']
    exact ⟨e', cleanTable_error_left hps⟩
  · cases hm : exceptMapM (parseRowAt iod) t.rows with
    | error e =>
      have hps : parseColStep "Order Date" t = Except.error e := by
        unfold parseColStep
        rw [hiod]
        dsimp only
        rw [hm]
      exact ⟨e, cleanTable_error_left hps⟩
    | ok rows1 =>
      have hps : parseColStep "Order Date" t = Except.ok ⟨t.header, rows1⟩ :=
        parseColStep_ok_iff.mpr ⟨iod, rows1, hiod, hm, rfl⟩
      have hne := date_idx_ne hiod hisd
      obtain ⟨r1, hr1mem, hp1⟩ := forall₂_mem_left (exceptMapM_ok_iff.mp hm) hr
      have hc1 : r1[i]? = some (Cell.str s) := by
        rw [parseRowAt_getElem_ne hp1 hne.symm]
        exact hc
      have herr : parseRowAt i r1 = Except.error "ParseError" :=
        parseRowAt_error hc1 (parseCell_str_err hp)
      obtain ⟨e', he'⟩ := exceptMapM_error_of_mem hr1mem herr
      have hps2 : parseColStep "Ship Date" (⟨t.header, rows1⟩ : Table) =
          Except.error e' := by
        unfold parseColStep
        dsimp only
        rw [hisd]
        dsimp only
        rw [he']
      exact ⟨e', cleanTable_error_right hps hps2⟩

/-! ### The claims -/

/-- Claim C1: on the two identical input rows with `Order Date`
`01/02/2022`, `Ship Date` `01/05/2022`, an empty `Sales` cell and
`Quantity`/`Discount`/`Profit` cells `3`, `0.1`, `12.5`, the cleaner
outputs exactly one row whose dates serialize as `2022-01-02` and
`2022-01-05`, whose `Sales` is the number 0, and whose remaining cells are
unchanged. -/
theorem claim_c1_end_to_end :
    cleanTable (readTable
        ["Order Date", "Ship Date", "Sales", "Quantity", "Discount", "Profit"]
        [["01/02/2022", "01/05/2022", "", "3", "0.1", "12.5"],
         ["01/02/2022", "01/05/2022", "", "3", "0.1", "12.5"]]) =
      Except.ok ⟨["Order Date", "Ship Date", "Sales", "Quantity", "Discount",
          "Profit"],
        [[Cell.date ⟨1, 2, 2022⟩, Cell.date ⟨1, 5, 2022⟩, Cell.num 0,
          Cell.str "3", Cell.str "0.1", Cell.str "12.5"]]⟩ ∧
    renderTable ⟨["Order Date", "Ship Date", "Sales", "Quantity", "Discount",
          "Profit"],
        [[Cell.date ⟨1, 2, 2022⟩, Cell.date ⟨1, 5, 2022⟩, Cell.num 0,
          Cell.str "3", Cell.str "0.1", Cell.str "12.5"]]⟩ =
      [["Order Date", "Ship Date", "Sales", "Quantity", "Discount", "Profit"],
       ["2022-01-02", "2022-01-05", "0", "3", "0.1", "12.5"]] :=
  ⟨by decide, by decide⟩

/-- Claim C3: the deduplication step agrees with the spec's description
(keep the first occurrence of each distinct row, delete the later
full-value duplicates), it returns a subsequence of its input (so the
relative order of survivors is preserved), keeps no two equal rows, and
keeps at least one copy of every input row. -/
theorem claim_c3_dedup (l : List (List Cell)) :
    dropDuplicates l = dedupSpec l ∧
    (dropDuplicates l).Sublist l ∧
    (dropDuplicates l).Nodup ∧
    (∀ x, x ∈ dropDuplicates l ↔ x ∈ l) := by
  refine ⟨dropDuplicates_eq_dedupSpec l, dropDupsGo_sublist [] l,
    nodup_dropDupsGo [] l, fun x => ?_⟩
  rw [dropDuplicates, mem_dropDupsGo]
  simp

/-- Claim C6: if some cell of the `Order Date` or `Ship Date` column does
not match the `MM/DD/YYYY` pattern, the cleaner stops with an error and no
output table is produced (the pipeline result is an error, so the
serialization step is never reached). -/
theorem claim_c6_parse_error {t : Table} {iod isd : Nat}
    (hiod : colIdx? "Order Date" t.header = some iod)
    (hisd : colIdx? "Ship Date" t.header = some isd)
    {r : List Cell} (hr : r ∈ t.rows) {i : Nat} (hi : i = iod ∨ i = isd)
    {s : String} (hc : r[i]? = some (Cell.str s)) (hp : parseDate s = none) :
    ∃ e, cleanTable t = Except.error e :=
  cleanTable_error_of_bad_date hiod hisd hr hi hc hp

/-- Witness for C6: a table whose `Order Date` cell is `13/40/2022`
satisfies the hypotheses and makes the cleaner fail. -/
theorem claim_c6_parse_error_witness :
    colIdx? "Order Date" ["Order Date", "Ship Date"] = some 0 ∧
    colIdx? "Ship Date" ["Order Date", "Ship Date"] = some 1 ∧
    [Cell.str "13/40/2022", Cell.str "01/02/2022"] ∈
      (readTable ["Order Date", "Ship Date"]
        [["13/40/2022", "01/02/2022"]]).rows ∧
    parseDate "13/40/2022" = none ∧
    ∃ e, cleanTable (readTable ["Order Date", "Ship Date"]
      [["13/40/2022", "01/02/2022"]]) = Except.error e :=
  ⟨by decide, by decide, by decide, by decide,
    @claim_c6_parse_error
      (readTable ["Order Date", "Ship Date"] [["13/40/2022", "01/02/2022"]])
      0 1 (by decide) (by decide)
      [Cell.str "13/40/2022", Cell.str "01/02/2022"] (by decide)
      0 (Or.inl rfl) "13/40/2022" (by decide) (by decide)⟩

/-- Claim C9: a date cell carrying surrounding whitespace around an
otherwise valid date fails to parse (the trim step runs only after date
parsing), so the cleaner stops with an error. -/
theorem claim_c9_whitespace_date {t : Table} {iod isd : Nat}
    (hiod : colIdx? "Order Date" t.header = some iod)
    (hisd : colIdx? "Ship Date" t.header = some isd)
    {r : List Cell} (hr : r ∈ t.rows) {i : Nat} (hi : i = iod ∨ i = isd)
    {s : String} (hc : r[i]? = some (Cell.str s)) {d : CalDate}
    (_hvalid : parseDate (pystrip s) = some d) (hws : pystrip s ≠ s) :
    ∃ e, cleanTable t = Except.error e := by
  have hnone : parseDate s = none :=
    parseDate_none_of_space
      (exists_space_of_stripChars_ne (pystrip_ne_iff.mp hws))
  exact cleanTable_error_of_bad_date hiod hisd hr hi hc hnone

/-- Witness for C9: the cell `" 03/15/2023"` is a valid date surrounded by
whitespace and makes the cleaner fail. -/
theorem claim_c9_whitespace_date_witness :
    colIdx? "Order Date" ["Order Date", "Ship Date"] = some 0 ∧
    colIdx? "Ship Date" ["Order Date", "Ship Date"] = some 1 ∧
    [Cell.str " 03/15/2023", Cell.str "01/02/2022"] ∈
      (readTable ["Order Date", "Ship Date"]
        [[" 03/15/2023", "01/02/2022"]]).rows ∧
    parseDate (pystrip " 03/15/2023") = some ⟨3, 15, 2023⟩ ∧
    pystrip " 03/15/2023" ≠ " 03/15/2023" ∧
    ∃ e, cleanTable (readTable ["Order Date", "Ship Date"]
      [[" 03/15/2023", "01/02/2022"]]) = Except.error e :=
  ⟨by decide, by decide, by decide, by decide, by decide,
    @claim_c9_whitespace_date
      (readTable ["Order Date", "Ship Date"] [[" 03/15/2023", "01/02/2022"]])
      0 1 (by decide) (by decide)
      [Cell.str " 03/15/2023", Cell.str "01/02/2022"] (by decide)
      0 (Or.inl rfl) " 03/15/2023" (by decide)
      ⟨3, 15, 2023⟩ (by decide) (by decide)⟩

/-- Claim C10: duplicate detection treats the missing marker as equal to
itself: a later row equal to an earlier one cell for cell (missing
matching missing) is removed, whatever surrounds it; and concretely, two
rows that agree everywhere with missing `Sales` and `Discount` cells
collapse to one row whose missing cells are then filled with 0 (the fill
runs after the deduplication). -/
theorem claim_c10_missing_dedup :
    (∀ (l1 l2 l3 : List (List Cell)) (r : List Cell),
      dropDuplicates (l1 ++ r :: (l2 ++ r :: l3)) =
        dropDuplicates (l1 ++ r :: (l2 ++ l3))) ∧
    cleanTable (readTable
        ["Order Date", "Ship Date", "Sales", "Quantity", "Discount", "Profit"]
        [["01/02/2022", "01/05/2022", "", "3", "", "12.5"],
         ["01/02/2022", "01/05/2022", "", "3", "", "12.5"]]) =
      Except.ok ⟨["Order Date", "Ship Date", "Sales", "Quantity", "Discount",
          "Profit"],
        [[Cell.date ⟨1, 2, 2022⟩, Cell.date ⟨1, 5, 2022⟩, Cell.num 0,
          Cell.str "3", Cell.num 0, Cell.str "12.5"]]⟩ := by
  constructor
  · intro l1 l2 l3 r
    have hmain := @dropDupsGo_dup_inner (List Cell) _ r l3 (l1 ++ r :: l2) []
      (Or.inr (by simp))
    rw [dropDuplicates, dropDuplicates]
    have e1 : (l1 ++ r :: l2) ++ r :: l3 = l1 ++ r :: (l2 ++ r :: l3) := by
      simp [List.append_assoc]
    have e2 : (l1 ++ r :: l2) ++ l3 = l1 ++ r :: (l2 ++ l3) := by
      simp [List.append_assoc]
    rw [e1, e2] at hmain
    exact hmain
  · decide

/-- Claim C2: every `Order Date` or `Ship Date` cell matching the
`MM/DD/YYYY` pattern is parsed to that calendar date, the corresponding
output row carries the parsed date, a date cell serializes in ISO
`YYYY-MM-DD` form, and in particular `03/15/2023` parses to the 15th of
March 2023, which serializes as `2023-03-15`. -/
theorem claim_c2_dates {t t' : Table} (h : cleanTable t = Except.ok t')
    {iod isd : Nat} (hiod : colIdx? "Order Date" t.header = some iod)
    (hisd : colIdx? "Ship Date" t.header = some isd) :
    (∀ r ∈ t.rows, ∃ r' ∈ t'.rows,
      (∀ s d, r[iod]? = some (Cell.str s) → parseDate s = some d →
        r'[iod]? = some (Cell.date d)) ∧
      (∀ s d, r[isd]? = some (Cell.str s) → parseDate s = some d →
        r'[isd]? = some (Cell.date d))) ∧
    (∀ d : CalDate, renderCell (Cell.date d) = isoDate d) ∧
    parseDate "03/15/2023" = some ⟨3, 15, 2023⟩ ∧
    isoDate ⟨3, 15, 2023⟩ = "2023-03-15" := by
  have hne := date_idx_ne hiod hisd
  refine ⟨?_, fun d => rfl, by decide, by decide⟩
  intro r hr
  obtain ⟨r1, r2, hp1, hp2, hmem⟩ := cleanTable_mem_image h hiod hisd hr
  refine ⟨_, hmem, ?_, ?_⟩
  · intro s d hc hpd
    obtain ⟨c1, hpc, hr1i⟩ := parseRowAt_getElem_eq hp1 hc
    rw [parseCell_str_of_parse hpd] at hpc
    injection hpc with hpc
    subst hpc
    have hr2i : r2[iod]? = some (Cell.date d) := by
      rw [parseRowAt_getElem_ne hp2 hne]
      exact hr1i
    have htr : (trimRow r2)[iod]? = some (Cell.date d) := by
      rw [trimRow, List.getElem?_map, hr2i]
      rfl
    have hh : (t.header.map pystrip)[iod]? = some "Order Date" := by
      rw [List.getElem?_map, colIdx?_get hiod]
      simp [pystrip_order_date]
    rw [fillRow_getElem_some hh htr, if_neg]
    rintro ⟨hfn, -⟩
    exact order_date_not_fill hfn
  · intro s d hc hpd
    have hr1i : r1[isd]? = some (Cell.str s) := by
      rw [parseRowAt_getElem_ne hp1 hne.symm]
      exact hc
    obtain ⟨c2, hpc, hr2i⟩ := parseRowAt_getElem_eq hp2 hr1i
    rw [parseCell_str_of_parse hpd] at hpc
    injection hpc with hpc
    subst hpc
    have htr : (trimRow r2)[isd]? = some (Cell.date d) := by
      rw [trimRow, List.getElem?_map, hr2i]
      rfl
    have hh : (t.header.map pystrip)[isd]? = some "Ship Date" := by
      rw [List.getElem?_map, colIdx?_get hisd]
      simp [pystrip_ship_date]
    rw [fillRow_getElem_some hh htr, if_neg]
    rintro ⟨hfn, -⟩
    exact ship_date_not_fill hfn

/-- Witness for C2 at a one-row table whose `Order Date` cell is
`03/15/2023`. -/
theorem claim_c2_dates_witness :
    cleanTable (readTable ["Order Date", "Ship Date"]
        [["03/15/2023", "01/02/2022"]]) =
      Except.ok ⟨["Order Date", "Ship Date"],
        [[Cell.date ⟨3, 15, 2023⟩, Cell.date ⟨1, 2, 2022⟩]]⟩ ∧
    colIdx? "Order Date" ["Order Date", "Ship Date"] = some 0 ∧
    colIdx? "Ship Date" ["Order Date", "Ship Date"] = some 1 ∧
    ((∀ r ∈ (readTable ["Order Date", "Ship Date"]
          [["03/15/2023", "01/02/2022"]]).rows,
        ∃ r' ∈ (Table.mk ["Order Date", "Ship Date"]
          [[Cell.date ⟨3, 15, 2023⟩, Cell.date ⟨1, 2, 2022⟩]]).rows,
        (∀ s d, r[0]? = some (Cell.str s) → parseDate s = some d →
          r'[0]? = some (Cell.date d)) ∧
        (∀ s d, r[1]? = some (Cell.str s) → parseDate s = some d →
          r'[1]? = some (Cell.date d))) ∧
      (∀ d : CalDate, renderCell (Cell.date d) = isoDate d) ∧
      parseDate "03/15/2023" = some ⟨3, 15, 2023⟩ ∧
      isoDate ⟨3, 15, 2023⟩ = "2023-03-15") :=
  ⟨by decide, by decide, by decide,
    @claim_c2_dates
      (readTable ["Order Date", "Ship Date"] [["03/15/2023", "01/02/2022"]])
      (Table.mk ["Order Date", "Ship Date"]
        [[Cell.date ⟨3, 15, 2023⟩, Cell.date ⟨1, 2, 2022⟩]])
      (by decide) 0 1 (by decide) (by decide)⟩

/-- Claim C4: the fill step replaces a missing cell by the number 0
exactly when its column carries one of the four names `Sales`, `Quantity`,
`Discount`, `Profit`, leaves every other cell as it is (so a missing cell
of any other column stays missing), and consequently the cleaner's output
has no missing cell left in those four columns. -/
theorem claim_c4_fillna :
    (∀ (h : List String) (r : List Cell) (j : Nat) (hn : String) (c : Cell),
      h[j]? = some hn → r[j]? = some c →
      (fillRow h r)[j]? =
        some (if hn ∈ fillNames ∧ c = Cell.missing then Cell.num 0 else c)) ∧
    (∀ (t t' : Table), cleanTable t = Except.ok t' →
      ∀ r ∈ t'.rows, ∀ (j : Nat) (hn : String),
        t'.header[j]? = some hn → hn ∈ fillNames →
        r[j]? ≠ some Cell.missing) := by
  constructor
  · intro h r j hn c hh hc
    exact fillRow_getElem_some hh hc
  · intro t t' hclean r hr j hn hh hfn hmiss
    obtain ⟨iod, isd, rows1, rows2, -, -, -, -, rfl⟩ :=
      cleanTable_ok_iff.mp hclean
    simp only [fillStep, dedupStep, trimStep] at hr hh
    obtain ⟨p, -, rfl⟩ := List.mem_map.mp hr
    cases hpj : p[j]? with
    | none =>
      rw [fillRow_getElem_rnone hpj] at hmiss
      cases hmiss
    | some c2 =>
      rw [fillRow_getElem_some hh hpj] at hmiss
      injection hmiss with hmiss
      by_cases hcond : hn ∈ fillNames ∧ c2 = Cell.missing
      · rw [if_pos hcond] at hmiss
        cases hmiss
      · rw [if_neg hcond] at hmiss
        exact hcond ⟨hfn, hmiss⟩

/-- Witness for C4: a missing `Sales` cell becomes the number 0, a missing
cell of another column stays missing, and the cleaned end-to-end table has
no missing cell in its `Sales` column. -/
theorem claim_c4_fillna_witness :
    (["Sales"] : List String)[0]? = some "Sales" ∧
    ([Cell.missing] : List Cell)[0]? = some Cell.missing ∧
    (fillRow ["Sales"] [Cell.missing])[0]? =
      some (if "Sales" ∈ fillNames ∧ Cell.missing = Cell.missing then
        Cell.num 0 else Cell.missing) ∧
    (fillRow ["Region"] [Cell.missing])[0]? =
      some (if "Region" ∈ fillNames ∧ Cell.missing = Cell.missing then
        Cell.num 0 else Cell.missing) ∧
    (fillRow ["Region"] [Cell.missing])[0]? = some Cell.missing ∧
    cleanTable (readTable ["Order Date", "Ship Date", "Sales"]
        [["01/02/2022", "01/05/2022", ""]]) =
      Except.ok ⟨["Order Date", "Ship Date", "Sales"],
        [[Cell.date ⟨1, 2, 2022⟩, Cell.date ⟨1, 5, 2022⟩, Cell.num 0]]⟩ ∧
    ∀ r ∈ (Table.mk ["Order Date", "Ship Date", "Sales"]
        [[Cell.date ⟨1, 2, 2022⟩, Cell.date ⟨1, 5, 2022⟩, Cell.num 0]]).rows,
      r[2]? ≠ some Cell.missing :=
  ⟨by decide, by decide,
    claim_c4_fillna.1 ["Sales"] [Cell.missing] 0 "Sales" Cell.missing
      (by decide) (by decide),
    claim_c4_fillna.1 ["Region"] [Cell.missing] 0 "Region" Cell.missing
      (by decide) (by decide),
    by decide, by decide,
    fun r hr =>
      claim_c4_fillna.2
        (readTable ["Order Date", "Ship Date", "Sales"]
          [["01/02/2022", "01/05/2022", ""]])
        (Table.mk ["Order Date", "Ship Date", "Sales"]
          [[Cell.date ⟨1, 2, 2022⟩, Cell.date ⟨1, 5, 2022⟩, Cell.num 0]])
        (by decide) r hr 2 "Sales" (by decide) (by decide)⟩

/-- Claim C5: after a successful run every column name of the output is
whitespace-trimmed, every string cell of the output is whitespace-trimmed,
and the trim step leaves non-string cells (numbers, dates, missing
markers) untouched. -/
theorem claim_c5_trimmed {t t' : Table} (h : cleanTable t = Except.ok t') :
    (∀ name ∈ t'.header, pystrip name = name) ∧
    (∀ r ∈ t'.rows, ∀ c ∈ r, ∀ s, c = Cell.str s → pystrip s = s) ∧
    (∀ c : Cell, (∀ s, c ≠ Cell.str s) → trimCell c = c) := by
  obtain ⟨iod, isd, rows1, rows2, -, -, -, -, rfl⟩ := cleanTable_ok_iff.mp h
  refine ⟨?_, ?_, ?_⟩
  · intro name hname
    simp only [fillStep, dedupStep, trimStep] at hname
    obtain ⟨y, -, rfl⟩ := List.mem_map.mp hname
    exact pystrip_idem y
  · intro r hr c hcmem s hcs
    simp only [fillStep, dedupStep, trimStep] at hr
    obtain ⟨p, hp, rfl⟩ := List.mem_map.mp hr
    obtain ⟨j, hj⟩ := List.mem_iff_getElem?.mp hcmem
    cases hh : (t.header.map pystrip)[j]? with
    | none =>
      rw [fillRow_getElem_hnone hh] at hj
      cases hj
    | some hn =>
      cases hpj : p[j]? with
      | none =>
        rw [fillRow_getElem_rnone hpj] at hj
        cases hj
      | some c2 =>
        rw [fillRow_getElem_some hh hpj] at hj
        injection hj with hj
        rw [dropDuplicates, mem_dropDupsGo] at hp
        obtain ⟨r2, -, rfl⟩ := List.mem_map.mp hp.1
        rw [trimRow, List.getElem?_map] at hpj
        obtain ⟨c3, -, rfl⟩ := Option.map_eq_some'.mp hpj
        rw [hcs] at hj
        by_cases hcond : hn ∈ fillNames ∧ trimCell c3 = Cell.missing
        · rw [if_pos hcond] at hj
          cases hj
        · rw [if_neg hcond] at hj
          cases c3 with
          | str s0 =>
            injection hj with hj
            rw [← hj]
            exact pystrip_idem s0
          | num n => cases hj
          | date dd => cases hj
          | missing => cases hj
  · intro c hns
    cases c with
    | str s => exact absurd rfl (hns s)
    | num n => rfl
    | date d => rfl
    | missing => rfl

/-- Witness for C5 at the end-to-end example table. -/
theorem claim_c5_trimmed_witness :
    cleanTable (readTable ["Order Date", "Ship Date", " Region "]
        [["01/02/2022", "01/05/2022", " West "]]) =
      Except.ok ⟨["Order Date", "Ship Date", "Region"],
        [[Cell.date ⟨1, 2, 2022⟩, Cell.date ⟨1, 5, 2022⟩,
          Cell.str "West"]]⟩ ∧
    ((∀ name ∈ (Table.mk ["Order Date", "Ship Date", "Region"]
        [[Cell.date ⟨1, 2, 2022⟩, Cell.date ⟨1, 5, 2022⟩,
          Cell.str "West"]]).header, pystrip name = name) ∧
      (∀ r ∈ (Table.mk ["Order Date", "Ship Date", "Region"]
        [[Cell.date ⟨1, 2, 2022⟩, Cell.date ⟨1, 5, 2022⟩,
          Cell.str "West"]]).rows,
        ∀ c ∈ r, ∀ s, c = Cell.str s → pystrip s = s) ∧
      (∀ c : Cell, (∀ s, c ≠ Cell.str s) → trimCell c = c)) :=
  ⟨by decide,
    @claim_c5_trimmed
      (readTable ["Order Date", "Ship Date", " Region "]
        [["01/02/2022", "01/05/2022", " West "]])
      (Table.mk ["Order Date", "Ship Date", "Region"]
        [[Cell.date ⟨1, 2, 2022⟩, Cell.date ⟨1, 5, 2022⟩, Cell.str "West"]])
      (by decide)⟩

/-- Counterexample to Claim C8 as stated: a `Region` column (not one of
the six named columns) holding the cell `" West "` is not passed through
unchanged — the blanket trim step rewrites it to `"West"`. -/
theorem claim_c8_counterexample :
    cleanTable (readTable ["Order Date", "Ship Date", "Region"]
        [["01/02/2022", "01/05/2022", " West "]]) =
      Except.ok ⟨["Order Date", "Ship Date", "Region"],
        [[Cell.date ⟨1, 2, 2022⟩, Cell.date ⟨1, 5, 2022⟩,
          Cell.str "West"]]⟩ ∧
    (readTable ["Order Date", "Ship Date", "Region"]
        [["01/02/2022", "01/05/2022", " West "]]).rows.map
      (fun r => r[2]?) = [some (Cell.str " West ")] ∧
    Cell.str "West" ≠ Cell.str " West " :=
  ⟨by decide, by decide, by decide⟩

/-- Claim C8 (amended): a column other than the two date columns, whose
trimmed name is also not one of the four fill columns, is passed through
with no column-specific transformation: every input row maps to an output
row whose cell in that column is the input cell changed only by the
blanket whitespace trim (rows may still be merged by deduplication). -/
theorem claim_c8_amended {t t' : Table} (h : cleanTable t = Except.ok t')
    {j : Nat} {name : String} (hj : t.header[j]? = some name)
    (h1 : name ≠ "Order Date") (h2 : name ≠ "Ship Date")
    (h3 : pystrip name ∉ fillNames) :
    ∀ r ∈ t.rows, ∃ r' ∈ t'.rows, r'[j]? = (r[j]?).map trimCell := by
  obtain ⟨iod, isd, rows1x, rows2x, hiod, -, hisd, -, -⟩ :=
    cleanTable_ok_iff.mp h
  have hjiod : j ≠ iod := by
    rintro rfl
    rw [colIdx?_get hiod] at hj
    injection hj with hj
    exact h1 hj.symm
  have hjisd : j ≠ isd := by
    rintro rfl
    rw [colIdx?_get hisd] at hj
    injection hj with hj
    exact h2 hj.symm
  intro r hr
  obtain ⟨r1, r2, hp1, hp2, hmem⟩ := cleanTable_mem_image h hiod hisd hr
  refine ⟨_, hmem, ?_⟩
  have hr2j : r2[j]? = r[j]? := by
    rw [parseRowAt_getElem_ne hp2 hjisd, parseRowAt_getElem_ne hp1 hjiod]
  have hh : (t.header.map pystrip)[j]? = some (pystrip name) := by
    rw [List.getElem?_map, hj]
    rfl
  cases hrj : r[j]? with
  | none =>
    rw [hrj] at hr2j
    have htr : (trimRow r2)[j]? = none := by
      rw [trimRow, List.getElem?_map, hr2j]
      rfl
    rw [fillRow_getElem_rnone htr]
    rfl
  | some c =>
    rw [hrj] at hr2j
    have htr : (trimRow r2)[j]? = some (trimCell c) := by
      rw [trimRow, List.getElem?_map, hr2j]
      rfl
    rw [fillRow_getElem_some hh htr, if_neg]
    · rfl
    · rintro ⟨hfn, -⟩
      exact h3 hfn

/-- Witness for the amended C8 at a table with a `Region` column. -/
theorem claim_c8_amended_witness :
    cleanTable (readTable ["Order Date", "Ship Date", "Region"]
        [["01/02/2022", "01/05/2022", " West "]]) =
      Except.ok ⟨["Order Date", "Ship Date", "Region"],
        [[Cell.date ⟨1, 2, 2022⟩, Cell.date ⟨1, 5, 2022⟩,
          Cell.str "West"]]⟩ ∧
    (readTable ["Order Date", "Ship Date", "Region"]
        [["01/02/2022", "01/05/2022", " West "]]).header[2]? =
      some "Region" ∧
    pystrip "Region" ∉ fillNames ∧
    ∀ r ∈ (readTable ["Order Date", "Ship Date", "Region"]
        [["01/02/2022", "01/05/2022", " West "]]).rows,
      ∃ r' ∈ (Table.mk ["Order Date", "Ship Date", "Region"]
        [[Cell.date ⟨1, 2, 2022⟩, Cell.date ⟨1, 5, 2022⟩,
          Cell.str "West"]]).rows,
        r'[2]? = (r[2]?).map trimCell :=
  ⟨by decide, by decide, by decide,
    @claim_c8_amended
      (readTable ["Order Date", "Ship Date", "Region"]
        [["01/02/2022", "01/05/2022", " West "]])
      (Table.mk ["Order Date", "Ship Date", "Region"]
        [[Cell.date ⟨1, 2, 2022⟩, Cell.date ⟨1, 5, 2022⟩, Cell.str "West"]])
      (by decide) 2 "Region" (by decide) (by decide) (by decide) (by decide)⟩

/-- Counterexample to Claim C7 as stated: on an input whose two rows
differ only in that one has an empty `Sales` cell and the other the cell
`0`, the first pass keeps both rows and fills the missing cell, making the
two output rows serialize identically; the second pass then deduplicates
them, so the second output is not byte-identical to the first. -/
theorem claim_c7_counterexample :
    cleanTable (readTable
        ["Order Date", "Ship Date", "Sales", "Quantity", "Discount", "Profit"]
        [["01/02/2022", "01/05/2022", "", "3", "0.1", "12.5"],
         ["01/02/2022", "01/05/2022", "0", "3", "0.1", "12.5"]]) =
      Except.ok ⟨["Order Date", "Ship Date", "Sales", "Quantity", "Discount",
          "Profit"],
        [[Cell.date ⟨1, 2, 2022⟩, Cell.date ⟨1, 5, 2022⟩, Cell.num 0,
          Cell.str "3", Cell.str "0.1", Cell.str "12.5"],
         [Cell.date ⟨1, 2, 2022⟩, Cell.date ⟨1, 5, 2022⟩, Cell.str "0",
          Cell.str "3", Cell.str "0.1", Cell.str "12.5"]]⟩ ∧
    cleanTable (reinputTable
        ⟨["Order Date", "Ship Date", "Sales", "Quantity", "Discount",
          "Profit"],
        [[Cell.date ⟨1, 2, 2022⟩, Cell.date ⟨1, 5, 2022⟩, Cell.num 0,
          Cell.str "3", Cell.str "0.1", Cell.str "12.5"],
         [Cell.date ⟨1, 2, 2022⟩, Cell.date ⟨1, 5, 2022⟩, Cell.str "0",
          Cell.str "3", Cell.str "0.1", Cell.str "12.5"]]⟩) =
      Except.ok ⟨["Order Date", "Ship Date", "Sales", "Quantity", "Discount",
          "Profit"],
        [[Cell.date ⟨1, 2, 2022⟩, Cell.date ⟨1, 5, 2022⟩, Cell.str "0",
          Cell.str "3", Cell.str "0.1", Cell.str "12.5"]]⟩ ∧
    renderTable ⟨["Order Date", "Ship Date", "Sales", "Quantity", "Discount",
          "Profit"],
        [[Cell.date ⟨1, 2, 2022⟩, Cell.date ⟨1, 5, 2022⟩, Cell.str "0",
          Cell.str "3", Cell.str "0.1", Cell.str "12.5"]]⟩ ≠
      renderTable ⟨["Order Date", "Ship Date", "Sales", "Quantity",
          "Discount", "Profit"],
        [[Cell.date ⟨1, 2, 2022⟩, Cell.date ⟨1, 5, 2022⟩, Cell.num 0,
          Cell.str "3", Cell.str "0.1", Cell.str "12.5"],
         [Cell.date ⟨1, 2, 2022⟩, Cell.date ⟨1, 5, 2022⟩, Cell.str "0",
          Cell.str "3", Cell.str "0.1", Cell.str "12.5"]]⟩ :=
  ⟨by decide, by decide, by decide⟩

/-- Claim C7 (amended): rerunning the cleaner on its own output — with the
date columns re-expressed in the `MM/DD/YYYY` input pattern by the
write-and-reload step — succeeds and serializes byte-identically to the
first output, provided the cleaned table's column names are distinct, no
two of its rows coincide after being written out and reloaded, and no cell
of the four numeric fill columns serializes to the empty field. -/
theorem claim_c7_amended {t t₁ : Table} (hwf : WF t) (htext : textOnly t)
    (h : cleanTable t = Except.ok t₁) (hnodupH : t₁.header.Nodup)
    (hnodupR : (t₁.rows.map (List.map reinputCell)).Nodup)
    (hfill : noEmptyFillCells t₁) :
    ∃ t₂, cleanTable (reinputTable t₁) = Except.ok t₂ ∧
      renderTable t₂ = renderTable t₁ :=
  cleanTable_second_pass hwf htext h hnodupH hnodupR hfill

/-- Witness for the amended C7 at the end-to-end example table. -/
theorem claim_c7_amended_witness :
    WF (readTable
        ["Order Date", "Ship Date", "Sales", "Quantity", "Discount", "Profit"]
        [["01/02/2022", "01/05/2022", "", "3", "0.1", "12.5"]]) ∧
    textOnly (readTable
        ["Order Date", "Ship Date", "Sales", "Quantity", "Discount", "Profit"]
        [["01/02/2022", "01/05/2022", "", "3", "0.1", "12.5"]]) ∧
    cleanTable (readTable
        ["Order Date", "Ship Date", "Sales", "Quantity", "Discount", "Profit"]
        [["01/02/2022", "01/05/2022", "", "3", "0.1", "12.5"]]) =
      Except.ok ⟨["Order Date", "Ship Date", "Sales", "Quantity", "Discount",
          "Profit"],
        [[Cell.date ⟨1, 2, 2022⟩, Cell.date ⟨1, 5, 2022⟩, Cell.num 0,
          Cell.str "3", Cell.str "0.1", Cell.str "12.5"]]⟩ ∧
    noEmptyFillCells ⟨["Order Date", "Ship Date", "Sales", "Quantity",
        "Discount", "Profit"],
      [[Cell.date ⟨1, 2, 2022⟩, Cell.date ⟨1, 5, 2022⟩, Cell.num 0,
        Cell.str "3", Cell.str "0.1", Cell.str "12.5"]]⟩ ∧
    ∃ t₂, cleanTable (reinputTable
        ⟨["Order Date", "Ship Date", "Sales", "Quantity", "Discount",
          "Profit"],
        [[Cell.date ⟨1, 2, 2022⟩, Cell.date ⟨1, 5, 2022⟩, Cell.num 0,
          Cell.str "3", Cell.str "0.1", Cell.str "12.5"]]⟩) =
        Except.ok t₂ ∧
      renderTable t₂ = renderTable
        ⟨["Order Date", "Ship Date", "Sales", "Quantity", "Discount",
          "Profit"],
        [[Cell.date ⟨1, 2, 2022⟩, Cell.date ⟨1, 5, 2022⟩, Cell.num 0,
          Cell.str "3", Cell.str "0.1", Cell.str "12.5"]]⟩ :=
  ⟨by decide, by decide, by decide, by decide,
    @claim_c7_amended
      (readTable
        ["Order Date", "Ship Date", "Sales", "Quantity", "Discount", "Profit"]
        [["01/02/2022", "01/05/2022", "", "3", "0.1", "12.5"]])
      (Table.mk
        ["Order Date", "Ship Date", "Sales", "Quantity", "Discount", "Profit"]
        [[Cell.date ⟨1, 2, 2022⟩, Cell.date ⟨1, 5, 2022⟩, Cell.num 0,
          Cell.str "3", Cell.str "0.1", Cell.str "12.5"]])
      (by decide) (by decide) (by decide) (by decide) (by decide)
      (by decide)⟩

end CleanCsv
